import Mathlib

/-!
Verification development for the deppth package I/O engine.

The definitions below are a shallow embedding, translated function by
function from the Python sources (src/deppth/utils.py, compression.py,
entries.py, sggpio.py, deppth.py).  Conventions used throughout:

* A byte is a `Nat` in `[0, 256)`; byte strings (`bytes`) are `List Nat`.
* A Python `str` is a `List Nat` of Unicode code points.  `len(s)` is the
  code-point count; `s.encode(...)` is an explicit encoding function.
* Python `int` is `Int` (arbitrary precision, signed).
* IEEE-754 single-precision fields are carried as their 32-bit big-endian
  bit pattern (a `Nat`), since the sources only move them between the
  4 wire bytes and the record (struct.unpack then struct.pack).
* Fallible operations return `Except PyErr`; each `PyErr` constructor
  names the Python exception the source would raise.
* `read` on file-like streams returns at most the requested number of
  bytes and silently returns fewer at end of stream, exactly like
  `io.FileIO.read` / `io.BytesIO.read`; a negative size reads to EOF.
-/

namespace Deppth

/-- Python exceptions surfaced by the translated code. -/
inductive PyErr where
  /-- `KeyError`: dictionary lookup with an absent key. -/
  | keyError
  /-- `TypeError`: e.g. `ord` applied to an empty bytes object. -/
  | typeError
  /-- `ValueError` / `struct.error`: malformed argument. -/
  | valueError
  /-- `OverflowError`: `int.to_bytes` target too small for the value. -/
  | overflowError
  /-- `UnicodeError`: `encode`/`decode` failure. -/
  | unicodeError
  /-- The generic `Exception` raised by `write_string` and the bink atlas
  version check. -/
  | exception
  /-- `OSError` raised by `PackageWriter.write` for oversized writes. -/
  | osError
  /-- `AttributeError`: attribute accessed before being set. -/
  | attributeError
deriving DecidableEq, Repr

/-- `int.from_bytes(bs, byteorder='big')` (unsigned). Empty input yields 0. -/
def natFromBE (bs : List Nat) : Nat :=
  bs.foldl (fun a b => a * 256 + b) 0

/-- `int.from_bytes(bs, byteorder='big', signed=True)`: two's-complement
interpretation over however many bytes were supplied. -/
def intFromBEsigned (bs : List Nat) : Int :=
  let m := natFromBE bs
  if 2 * m ≥ 256 ^ bs.length then (m : Int) - (256 ^ bs.length : Nat) else (m : Int)

/-- The 4 big-endian bytes of `m % 2^32`. -/
def be4 (m : Nat) : List Nat :=
  [m / 2 ^ 24 % 256, m / 2 ^ 16 % 256, m / 2 ^ 8 % 256, m % 256]

/-- `n.to_bytes(4, 'big', signed=True)`: raises `OverflowError` outside
the `i32` range, otherwise the two's-complement big-endian bytes. -/
def int4enc (n : Int) : Except PyErr (List Nat) :=
  if -(2 ^ 31) ≤ n ∧ n < 2 ^ 31 then .ok (be4 ((n % (2 ^ 32 : Nat)).toNat)) else .error .overflowError

/-- `bytes([v])`: raises `ValueError` unless `0 ≤ v < 256`. -/
def byte1 (v : Nat) : Except PyErr (List Nat) :=
  if v < 256 then .ok [v] else .error .valueError

/-- `s.encode('ascii')`: identity on code points below 128, else
`UnicodeEncodeError`. -/
def asciiEncode (s : List Nat) : Except PyErr (List Nat) :=
  if s.all (· < 128) then .ok s else .error .unicodeError

/-- `bs.decode('ascii')`: identity on bytes below 128, else
`UnicodeDecodeError`. -/
def asciiDecode (bs : List Nat) : Except PyErr (List Nat) :=
  if bs.all (· < 128) then .ok bs else .error .unicodeError

/-- UTF-8 encoding of one code point (as `str.encode('utf-8')` produces). -/
def utf8EncodeChar (c : Nat) : List Nat :=
  if c < 0x80 then [c]
  else if c < 0x800 then [0xC0 + c / 64, 0x80 + c % 64]
  else if c < 0x10000 then [0xE0 + c / 4096, 0x80 + c / 64 % 64, 0x80 + c % 64]
  else [0xF0 + c / 262144, 0x80 + c / 4096 % 64, 0x80 + c / 64 % 64, 0x80 + c % 64]

/-- `s.encode('utf-8')`. -/
def utf8Encode (s : List Nat) : List Nat :=
  s.flatMap utf8EncodeChar

/-- Helper for `utf8Decode`: check that `b` is a UTF-8 continuation byte. -/
def utf8Cont (b : Nat) : Bool :=
  0x80 ≤ b && b < 0xC0

/-- Decode one UTF-8-encoded code point from the front of a byte string,
validating continuation bytes. -/
def utf8DecodeChar : List Nat → Except PyErr (Nat × List Nat)
  | [] => .error .unicodeError
  | b :: r =>
    if b < 0x80 then .ok (b, r)
    else if 0xC2 ≤ b ∧ b ≤ 0xDF then
      match r with
      | b1 :: r1 =>
        if utf8Cont b1 then .ok ((b - 0xC0) * 64 + (b1 - 0x80), r1)
        else .error .unicodeError
      | _ => .error .unicodeError
    else if 0xE0 ≤ b ∧ b ≤ 0xEF then
      match r with
      | b1 :: b2 :: r2 =>
        if utf8Cont b1 ∧ utf8Cont b2 then
          .ok ((b - 0xE0) * 4096 + (b1 - 0x80) * 64 + (b2 - 0x80), r2)
        else .error .unicodeError
      | _ => .error .unicodeError
    else if 0xF0 ≤ b ∧ b ≤ 0xF4 then
      match r with
      | b1 :: b2 :: b3 :: r3 =>
        if utf8Cont b1 ∧ utf8Cont b2 ∧ utf8Cont b3 then
          .ok ((b - 0xF0) * 262144 + (b1 - 0x80) * 4096 + (b2 - 0x80) * 64 + (b3 - 0x80), r3)
        else .error .unicodeError
      | _ => .error .unicodeError
    else .error .unicodeError

/-- Decode a whole byte string; the fuel starts at the byte count and each
code point consumes at least one byte. -/
def utf8DecodeLoop : Nat → List Nat → Except PyErr (List Nat)
  | _, [] => .ok []
  | 0, _ :: _ => .error .unicodeError
  | fuel + 1, b :: r => do
    let (c, rest) ← utf8DecodeChar (b :: r)
    let cs ← utf8DecodeLoop fuel rest
    pure (c :: cs)

/-- `bs.decode('utf-8')`: validating decoder returning code points. -/
def utf8Decode (bs : List Nat) : Except PyErr (List Nat) :=
  utf8DecodeLoop bs.length bs

/-! ## 7-bit encoded integers (utils.py, `IOExtensionMixin`)

`read_7bit_encoded_int` / `write_7bit_encoded_int`, specialised to a plain
byte-list stream (each loop iteration reads exactly one byte, so the byte
list is consumed structurally). -/

/-- The loop body of `write_7bit_encoded_int` applied to the nonnegative
`value`: emit 7 bits at a time, most significant bit flagging continuation. -/
def write7bitLoop (value : Nat) : List Nat :=
  if value ≥ 0x80 then ((value ||| 0x80) &&& 0xFF) :: write7bitLoop (value >>> 7)
  else [value &&& 0xFF]
termination_by value
decreasing_by
  simp only [Nat.shiftRight_eq_div_pow]
  omega

/-- `write_7bit_encoded_int(n)`: the source first takes `value = abs(n)`. -/
def write_7bit_encoded_int (n : Int) : List Nat :=
  write7bitLoop n.natAbs

/-- The loop of `read_7bit_encoded_int`: `index` counts iterations,
`result` accumulates `(byte & 0x7f) << (7 * index)` with bitwise or.
Reading past the end of the stream raises (`ord` of empty bytes). -/
def read7bitLoop : List Nat → Nat → Nat → Except PyErr (Nat × List Nat)
  | [], _, _ => .error .typeError
  | b :: r, index, result =>
    let result := result ||| ((b &&& 0x7f) <<< (7 * index))
    if b &&& 0x80 = 0 then .ok (result, r) else read7bitLoop r (index + 1) result

/-- `read_7bit_encoded_int` over a byte-list stream: returns the decoded
value and the unconsumed tail. -/
def read_7bit_encoded_int (s : List Nat) : Except PyErr (Nat × List Nat) :=
  read7bitLoop s 0 0

/-! Arithmetic facts about the varint loops. -/

theorem lor_shift_add {a : Nat} (g k : Nat) (h : a < 2 ^ k) :
    a ||| (g <<< k) = a + g * 2 ^ k := by
  have hb : a + g * 2 ^ k = 2 ^ k * g + a := by ring
  apply Nat.eq_of_testBit_eq
  intro i
  rw [hb, Nat.testBit_mul_pow_two_add g h i]
  simp only [Nat.testBit_or, Nat.testBit_shiftLeft]
  by_cases hik : i < k
  · have hnk : ¬ (k ≤ i) := by omega
    simp [hik, hnk]
  · have hk : k ≤ i := by omega
    have ha : a.testBit i = false :=
      Nat.testBit_lt_two_pow (Nat.lt_of_lt_of_le h (Nat.pow_le_pow_right (by omega) hk))
    simp [hik, hk, ha]

theorem lor128_and255 (v : Nat) : (v ||| 0x80) &&& 0xFF = v % 128 + 128 := by
  apply Nat.eq_of_testBit_eq
  intro i
  have h255 : (0xFF : Nat) = 2 ^ 8 - 1 := by norm_num
  have h128 : (0x80 : Nat) = 2 ^ 7 := by norm_num
  have hlt : v % 128 < 2 ^ 7 := by
    have := Nat.mod_lt v (y := 128) (by norm_num)
    omega
  have hrhs : v % 128 + 128 = 2 ^ 7 * 1 + v % 128 := by omega
  rw [hrhs, Nat.testBit_mul_pow_two_add 1 hlt i]
  simp only [Nat.testBit_and, Nat.testBit_or, h255, h128, Nat.testBit_two_pow_sub_one,
    Nat.testBit_two_pow]
  by_cases hi7 : i < 7
  · have hm : v % 128 = v % 2 ^ 7 := by norm_num
    simp [hm, Nat.testBit_mod_two_pow, hi7, show (7 : Nat) ≠ i by omega, show i < 8 by omega]
  · by_cases hie : i = 7
    · subst hie
      simp
    · have h8 : ¬ (i < 8) := by omega
      have hone : Nat.testBit 1 (i - 7) = false :=
        Nat.testBit_lt_two_pow (by
          have : (1 : Nat) < 2 ^ 1 := by norm_num
          calc (1 : Nat) < 2 ^ 1 := this
          _ ≤ 2 ^ (i - 7) := Nat.pow_le_pow_right (by omega) (by omega))
    -- i > 7: both sides are false
      simp [hi7, hie, h8, hone, show ¬ ((7 : Nat) = i) by omega]

theorem and255_of_lt {v : Nat} (h : v < 128) : v &&& 0xFF = v := by
  have h8 : (0xFF : Nat) = 2 ^ 8 - 1 := by norm_num
  rw [h8, Nat.and_pow_two_sub_one_of_lt_two_pow (by omega)]

theorem and127_eq_mod (v : Nat) : v &&& 0x7f = v % 128 := by
  have h7 : (0x7f : Nat) = 2 ^ 7 - 1 := by norm_num
  have h2 : (128 : Nat) = 2 ^ 7 := by norm_num
  rw [h7, h2, Nat.and_pow_two_sub_one_eq_mod]

theorem and128_of_lt {v : Nat} (h : v < 128) : v &&& 0x80 = 0 := by
  apply Nat.eq_of_testBit_eq
  intro i
  have h128 : (0x80 : Nat) = 2 ^ 7 := by norm_num
  simp only [Nat.testBit_and, h128, Nat.testBit_two_pow, Nat.zero_testBit]
  by_cases hie : (7 : Nat) = i
  · subst hie
    have hv : v.testBit 7 = false := Nat.testBit_lt_two_pow (by omega)
    simp [hv]
  · simp [hie]

theorem and128_ne_zero {v : Nat} (h1 : 128 ≤ v) (h2 : v < 256) : v &&& 0x80 ≠ 0 := by
  intro hz
  have hbit : v.testBit 7 = true := by
    rw [Nat.testBit_to_div_mod]
    simp only [decide_eq_true_eq]
    have h7 : (2 : Nat) ^ 7 = 128 := by norm_num
    rw [h7]
    omega
  have h128 : (0x80 : Nat) = 2 ^ 7 := by norm_num
  have hcontr := congrArg (fun x => x.testBit 7) hz
  simp only [Nat.testBit_and, h128, Nat.testBit_two_pow_self, hbit, Nat.zero_testBit,
    Bool.and_true] at hcontr
  exact Bool.noConfusion hcontr

theorem read7bitLoop_cons (b : Nat) (r : List Nat) (index acc : Nat) :
    read7bitLoop (b :: r) index acc =
      if b &&& 0x80 = 0 then .ok (acc ||| ((b &&& 0x7f) <<< (7 * index)), r)
      else read7bitLoop r (index + 1) (acc ||| ((b &&& 0x7f) <<< (7 * index))) := rfl

theorem pow7succ (index : Nat) : (2 : Nat) ^ (7 * (index + 1)) = 128 * 2 ^ (7 * index) := by
  have h : (128 : Nat) = 2 ^ 7 := by norm_num
  rw [h, ← Nat.pow_add]
  ring_nf

/-- Decoding after encoding recovers the absolute value: the central
round-trip lemma for the varint loops. -/
theorem read7bitLoop_write7bitLoop (v : Nat) :
    ∀ (rest : List Nat) (index acc : Nat), acc < 2 ^ (7 * index) →
      read7bitLoop (write7bitLoop v ++ rest) index acc = .ok (acc + v * 2 ^ (7 * index), rest) := by
  induction v using Nat.strong_induction_on with
  | _ v ih =>
    intro rest index acc hacc
    rw [write7bitLoop]
    by_cases hv : v ≥ 0x80
    · rw [if_pos hv, List.cons_append, read7bitLoop_cons, lor128_and255]
      have hm : v % 128 < 128 := Nat.mod_lt _ (by norm_num)
      have hcont : ¬ ((v % 128 + 128) &&& 0x80 = 0) := and128_ne_zero (by omega) (by omega)
      rw [if_neg hcont, and127_eq_mod]
      have hmm : (v % 128 + 128) % 128 = v % 128 := by omega
      rw [hmm, lor_shift_add _ _ hacc]
      have hrec : v >>> 7 < v := by
        rw [Nat.shiftRight_eq_div_pow]
        have h7 : (2:Nat) ^ 7 = 128 := by norm_num
        rw [h7]
        exact Nat.div_lt_self (by omega) (by norm_num)
      have hacc' : acc + v % 128 * 2 ^ (7 * index) < 2 ^ (7 * (index + 1)) := by
        have h2 : v % 128 * 2 ^ (7 * index) ≤ 127 * 2 ^ (7 * index) :=
          Nat.mul_le_mul_right (2 ^ (7 * index)) (by omega)
        have hpos : 0 < 2 ^ (7 * index) := Nat.pos_pow_of_pos _ (by norm_num)
        rw [pow7succ]
        omega
      rw [ih (v >>> 7) hrec rest (index + 1) _ hacc']
      have hval : acc + v % 128 * 2 ^ (7 * index) + v >>> 7 * 2 ^ (7 * (index + 1))
          = acc + v * 2 ^ (7 * index) := by
        rw [Nat.shiftRight_eq_div_pow]
        have h7 : (2:Nat) ^ 7 = 128 := by norm_num
        rw [h7, pow7succ]
        have hsplit : v = v % 128 + 128 * (v / 128) := by omega
        calc acc + v % 128 * 2 ^ (7 * index) + v / 128 * (128 * 2 ^ (7 * index))
            = acc + (v % 128 + 128 * (v / 128)) * 2 ^ (7 * index) := by ring
          _ = acc + v * 2 ^ (7 * index) := by rw [← hsplit]
      rw [hval]
    · rw [if_neg hv, List.singleton_append, read7bitLoop_cons]
      have hlt : v < 128 := by omega
      rw [and255_of_lt hlt]
      rw [if_pos (and128_of_lt hlt), and127_eq_mod, Nat.mod_eq_of_lt hlt,
        lor_shift_add _ _ hacc]

/-- C9: for every negative integer `n`, `write_7bit_encoded_int` emits the
varint encoding of `abs(n)`, so writing `n` and reading it back yields
`|n|` rather than `n`; the sign is silently discarded, no error is raised. -/
theorem C9_write_7bit_negative_discards_sign (n : Int) (hneg : n < 0) :
    read_7bit_encoded_int (write_7bit_encoded_int n) = .ok (n.natAbs, []) ∧
      ((n.natAbs : Int) ≠ n) := by
  constructor
  · rw [read_7bit_encoded_int, write_7bit_encoded_int]
    have h := read7bitLoop_write7bitLoop n.natAbs [] 0 0 (by norm_num)
    simpa using h
  · have : (0 : Int) ≤ (n.natAbs : Int) := Int.natCast_nonneg _
    omega

/-- Witness for C9 at the concrete input `n = -300`. -/
theorem C9_write_7bit_negative_discards_sign_witness :
    (-300 : Int) < 0 ∧
      (read_7bit_encoded_int (write_7bit_encoded_int (-300)) = .ok ((-300 : Int).natAbs, []) ∧
        (((-300 : Int).natAbs : Int) ≠ -300)) :=
  ⟨by norm_num, C9_write_7bit_negative_discards_sign (-300) (by norm_num)⟩

example : write_7bit_encoded_int 300 = [0xAC, 0x02] := by
  rw [write_7bit_encoded_int]
  norm_num
  rw [write7bitLoop]
  norm_num
  rw [write7bitLoop]
  decide

/-! ## Byte-stream primitives over an abstract stream (utils.py)

`IOExtensionMixin` only ever touches the underlying object through
`self.read`, so the helpers are defined once over a `read` operation and
instantiated both for plain byte lists (`io.BytesIO`/`io.FileIO`) and for
`PackageReader` further below.  `read` takes a Python `int` size: a
negative size reads to end of stream. -/

/-- The single primitive a stream must provide: `self.read(size)`. -/
def ReadFn (σ : Type) : Type :=
  Int → σ → List Nat × σ

/-- `read` for a plain byte-list stream positioned at its head
(`io.FileIO.read` semantics: short reads at EOF, negative size reads all). -/
def listRead : ReadFn (List Nat) :=
  fun n l => if n < 0 then (l, []) else (l.take n.toNat, l.drop n.toNat)

/-- `ord(self.read(1))`: raises `TypeError` when the stream is exhausted. -/
def ord1 (rd : ReadFn σ) (s : σ) : Except PyErr (Nat × σ) :=
  match rd 1 s with
  | ([b], s) => .ok (b, s)
  | _ => .error .typeError

/-- `read_string`: one length byte, then that many bytes, decoded as ASCII. -/
def read_string (rd : ReadFn σ) (s : σ) : Except PyErr (List Nat × σ) := do
  let (lb, s) := rd 1 s
  let length := natFromBE lb
  let (sb, s) := rd (length : Int) s
  let r ← asciiDecode sb
  pure (r, s)

/-- `write_string`: raises for strings longer than 255, else emits the
length byte and the ASCII encoding. -/
def write_string (str : List Nat) : Except PyErr (List Nat) := do
  if str.length > 255 then
    throw .exception
  else
    let sb ← asciiEncode str
    let lb ← byte1 str.length
    pure (lb ++ sb)

/-- `read_big_string`: 4-byte big-endian signed length, then that many
bytes decoded as UTF-8. -/
def read_big_string (rd : ReadFn σ) (s : σ) : Except PyErr (List Nat × σ) := do
  let (lb, s) := rd 4 s
  let length := intFromBEsigned lb
  let (sb, s) := rd length s
  let r ← utf8Decode sb
  pure (r, s)

/-- `write_big_string`: the length written is `len(s)` in code points while
the body is the UTF-8 encoding (which is longer for non-ASCII text). -/
def write_big_string (str : List Nat) : Except PyErr (List Nat) := do
  let lb ← int4enc (str.length : Int)
  pure (lb ++ utf8Encode str)

/-- `read_int` with the default arguments used throughout the package code:
big-endian, signed. -/
def read_int (rd : ReadFn σ) (s : σ) : Int × σ :=
  let (bs, s) := rd 4 s
  (intFromBEsigned bs, s)

/-- `write_int` with default arguments (big-endian, signed). -/
def write_int (n : Int) : Except PyErr (List Nat) :=
  int4enc n

/-- `read_single`: 4 bytes interpreted as a big-endian IEEE-754 single,
carried as the 32-bit pattern; `struct.unpack` raises on a short read. -/
def read_single (rd : ReadFn σ) (s : σ) : Except PyErr (Nat × σ) :=
  let (bs, s) := rd 4 s
  if bs.length = 4 then .ok (natFromBE bs, s) else .error .valueError

/-- `write_single`: `struct.pack('>f', s)` of a value carried as its
32-bit pattern. -/
def write_single (w : Nat) : List Nat :=
  be4 w

/-! ## Entry records (entries.py)

One constructor per registered entry type.  Field names follow the Python
attributes; conditionally-set attributes (`BinkAtlasEntry.originalSize`,
`.scaling`) are `Option`s. -/

/-- The fields read/written by `XNBAssetEntryBase` (texture, texture3d, and
the texture embedded in an atlas). -/
structure TextureRec where
  name : List Nat
  size : Int
  data : List Nat
deriving DecidableEq, Repr

/-- One sub-atlas record of an `AtlasEntry` (the dict appended to
`subAtlases`).  `scaleRatioX/Y` are f32 bit patterns. -/
structure SubAtlas where
  name : List Nat
  rectX : Int
  rectY : Int
  rectW : Int
  rectH : Int
  topLeftX : Int
  topLeftY : Int
  originalSizeX : Int
  originalSizeY : Int
  scaleRatioX : Nat
  scaleRatioY : Nat
  isMulti : Bool
  isMip : Bool
  isAlpha8 : Bool
  hull : List (Int × Int)
deriving DecidableEq, Repr

/-- The tail of an atlas entry: either a reference to a texture by name or
a full embedded texture record. -/
inductive AtlasTail where
  | reference (referencedTextureName : List Nat)
  | includedTexture (tex : TextureRec)
deriving DecidableEq, Repr

/-- A package entry (one constructor per registered type byte). -/
inductive Entry where
  | texture (t : TextureRec)
  | texture3d (t : TextureRec)
  | bink (isAlpha : Bool) (scaling : Nat) (name : List Nat)
  | atlas (version : Int) (subAtlases : List SubAtlas) (tail : AtlasTail)
  | binkAtlas (size : Int) (version : Int) (name : List Nat) (width : Int) (height : Int)
      (originalSize : Option (Int × Int)) (scaling : Option Nat)
  | includePkg (name : List Nat)
  | spine (version : Nat) (name : List Nat) (spineAtlas : List Nat) (spineData : List Nat)
deriving DecidableEq, Repr

/-- `entry.name` as set by each `read_from`. -/
def Entry.name : Entry → List Nat
  | .texture t => t.name
  | .texture3d t => t.name
  | .bink _ _ n => n
  | .atlas _ _ (.reference n) => n
  | .atlas _ _ (.includedTexture t) => t.name
  | .binkAtlas _ _ n _ _ _ _ => n
  | .includePkg n => n
  | .spine _ n _ _ => n

/-- The registered type byte of an entry (`_typeCode`). -/
def Entry.typeCode : Entry → Nat
  | .texture _ => 0xAD
  | .texture3d _ => 0xAA
  | .bink _ _ _ => 0xBB
  | .atlas _ _ _ => 0xDE
  | .binkAtlas _ _ _ _ _ _ _ => 0xEE
  | .includePkg _ => 0xCC
  | .spine _ _ _ _ => 0xF0

/-- The bit pattern of the float `1.0`, `BinkEntry`'s default scaling. -/
def f32one : Nat := 0x3F800000

/-! ### read_from / write_to, per entry type -/

/-- `XNBAssetEntryBase.read_from`: name, size, then `size` payload bytes. -/
def xnbReadFrom (rd : ReadFn σ) (s : σ) : Except PyErr (TextureRec × σ) := do
  let (name, s) ← read_string rd s
  let (size, s) := read_int rd s
  let (data, s) := rd size s
  pure (⟨name, size, data⟩, s)

/-- `XNBAssetEntryBase.write_to`: name, the stored `size`, the stored data
( faithfully, even when `size ≠ len(data)`). -/
def xnbWriteTo (t : TextureRec) : Except PyErr (List Nat) := do
  let nb ← write_string t.name
  let sb ← write_int t.size
  pure (nb ++ sb ++ t.data)

/-- `TextureEntry.read_from` (inherited from `XNBAssetEntryBase`). -/
def textureReadFrom (rd : ReadFn σ) (s : σ) : Except PyErr (Entry × σ) := do
  let (t, s) ← xnbReadFrom rd s
  pure (.texture t, s)

/-- `Texture3DEntry.read_from` (inherited from `XNBAssetEntryBase`). -/
def texture3dReadFrom (rd : ReadFn σ) (s : σ) : Except PyErr (Entry × σ) := do
  let (t, s) ← xnbReadFrom rd s
  pure (.texture3d t, s)

/-- `BinkEntry.read_from`. -/
def binkReadFrom (rd : ReadFn σ) (s : σ) : Except PyErr (Entry × σ) := do
  let (firstByte, s) := rd 1 s
  let isAlpha := firstByte == [0x01]
  if firstByte == [0xFF] then
    let (num, s) := read_int rd s
    let (_, s) := rd 1 s
    if num > 0 then
      let (sc, s) ← read_single rd s
      let (name, s) ← read_string rd s
      pure (.bink isAlpha sc name, s)
    else
      let (name, s) ← read_string rd s
      pure (.bink isAlpha f32one name, s)
  else
    let (name, s) ← read_string rd s
    pure (.bink isAlpha f32one name, s)

/-- `BinkEntry.write_to` is literally `pass`: it emits nothing. -/
def binkWriteTo : Except PyErr (List Nat) :=
  .ok []

/-- Read `n` hull points (the `range(0, hullCount)` loop). -/
def readHullPoints (rd : ReadFn σ) : Nat → σ → List (Int × Int) × σ
  | 0, s => ([], s)
  | n + 1, s =>
    let (x, s) := read_int rd s
    let (y, s) := read_int rd s
    let (r, s) := readHullPoints rd n s
    ((x, y) :: r, s)

/-- One sub-atlas record of `AtlasEntry.read_from` (one iteration of the
`range(0, numSubAtlases)` loop), gated by the atlas-local `version`. -/
def subAtlasReadFrom (rd : ReadFn σ) (version : Int) (s : σ) :
    Except PyErr (SubAtlas × σ) := do
  let (name, s) ← read_string rd s
  let (rx, s) := read_int rd s
  let (ry, s) := read_int rd s
  let (rw, s) := read_int rd s
  let (rh, s) := read_int rd s
  let (tlx, s) := read_int rd s
  let (tly, s) := read_int rd s
  let (osx, s) := read_int rd s
  let (osy, s) := read_int rd s
  let (srx, s) ← read_single rd s
  let (sry, s) ← read_single rd s
  if version > 0 then
    let (flags, s) ← ord1 rd s
    let isMulti := if version > 1 then decide (flags &&& 1 ≠ 0) else false
    let isMip := if version > 1 then decide (flags &&& 2 ≠ 0) else false
    let isAlpha8 := if version > 1 ∧ version > 3 then decide (flags &&& 4 ≠ 0) else false
    if version > 2 then
      let (hullCount, s) := read_int rd s
      let (hull, s) := readHullPoints rd hullCount.toNat s
      pure (⟨name, rx, ry, rw, rh, tlx, tly, osx, osy, srx, sry, isMulti, isMip, isAlpha8, hull⟩, s)
    else
      pure (⟨name, rx, ry, rw, rh, tlx, tly, osx, osy, srx, sry, isMulti, isMip, isAlpha8, []⟩, s)
  else
    pure (⟨name, rx, ry, rw, rh, tlx, tly, osx, osy, srx, sry, false, false, false, []⟩, s)

/-- The `range(0, numSubAtlases)` loop of `AtlasEntry.read_from`. -/
def subAtlasLoop (rd : ReadFn σ) (version : Int) : Nat → σ → Except PyErr (List SubAtlas × σ)
  | 0, s => .ok ([], s)
  | n + 1, s => do
    let (sa, s) ← subAtlasReadFrom rd version s
    let (r, s) ← subAtlasLoop rd version n s
    pure (sa :: r, s)

/-- `AtlasEntry.read_from`: skip the 4 size bytes, detect the
`2142336875` version sentinel, read the sub-atlases, then either a
reference name (tail byte 221, or any manifest context) or a full
embedded texture record. -/
def atlasReadFrom (rd : ReadFn σ) (isManifest : Bool) (_version : Int) (s : σ) :
    Except PyErr (Entry × σ) := do
  let (_, s) := rd 4 s
  let (nb, s) := rd 4 s
  let num0 := natFromBE nb
  let (version, numSubAtlases, s) :=
    if num0 = 2142336875 then
      let (v, s) := read_int rd s
      let (n, s) := read_int rd s
      (v, n.toNat, s)
    else
      ((0 : Int), num0, s)
  let (subs, s) ← subAtlasLoop rd version numSubAtlases s
  let (tb, s) := rd 1 s
  if natFromBE tb = 221 ∨ isManifest then
    let (rname, s) ← read_string rd s
    pure (.atlas version subs (.reference rname), s)
  else
    let (tex, s) ← xnbReadFrom rd s
    pure (.atlas version subs (.includedTexture tex), s)

/-- Serialise the hull points of one sub-atlas. -/
def hullWriteTo : List (Int × Int) → Except PyErr (List Nat)
  | [] => .ok []
  | (x, y) :: r => do
    let xb ← write_int x
    let yb ← write_int y
    let rb ← hullWriteTo r
    pure (xb ++ yb ++ rb)

/-- The flag byte emitted for a sub-atlas when `version > 0`
(`AtlasEntry.write_to`). -/
def subAtlasFlagsPart (version : Int) (isMulti isMip isAlpha8 : Bool) :
    Except PyErr (List Nat) :=
  if version > 0 then
    byte1 ((if isMulti then 1 else 0) + (if isMip then 2 else 0) + (if isAlpha8 then 4 else 0))
  else pure []

/-- The hull-count and hull points emitted for a sub-atlas when
`version > 2` (`AtlasEntry.write_to`). -/
def subAtlasHullPart (version : Int) (hull : List (Int × Int)) : Except PyErr (List Nat) :=
  if version > 2 then do
    let hc ← write_int (hull.length : Int)
    let pts ← hullWriteTo hull
    pure (hc ++ pts)
  else pure []

/-- Serialise one sub-atlas record (`AtlasEntry.write_to` loop body). -/
def subAtlasWriteTo (version : Int) (sa : SubAtlas) : Except PyErr (List Nat) := do
  let nb ← write_string sa.name
  let b1 ← write_int sa.rectX
  let b2 ← write_int sa.rectY
  let b3 ← write_int sa.rectW
  let b4 ← write_int sa.rectH
  let b5 ← write_int sa.topLeftX
  let b6 ← write_int sa.topLeftY
  let b7 ← write_int sa.originalSizeX
  let b8 ← write_int sa.originalSizeY
  let f1 := write_single sa.scaleRatioX
  let f2 := write_single sa.scaleRatioY
  let flagsPart ← subAtlasFlagsPart version sa.isMulti sa.isMip sa.isAlpha8
  let hullPart ← subAtlasHullPart version sa.hull
  pure (nb ++ b1 ++ b2 ++ b3 ++ b4 ++ b5 ++ b6 ++ b7 ++ b8 ++ f1 ++ f2 ++ flagsPart ++ hullPart)

/-- Serialise all sub-atlas records in order. -/
def subsWriteTo (version : Int) : List SubAtlas → Except PyErr (List Nat)
  | [] => .ok []
  | sa :: r => do
    let b ← subAtlasWriteTo version sa
    let rb ← subsWriteTo version r
    pure (b ++ rb)

/-- The tail of `AtlasEntry.write_to`: the referenced texture name for a
reference atlas, else the embedded texture record. -/
def atlasTailBody : AtlasTail → Except PyErr (List Nat)
  | .reference rname => write_string rname
  | .includedTexture tex => xnbWriteTo tex

/-- `AtlasEntry.write_to`: contents into a scratch buffer (sentinel,
version, count, sub-atlases, tail), then the `len(buf) - 35` size prefix
followed by the contents. -/
def atlasWriteTo (version : Int) (subs : List SubAtlas) (tail : AtlasTail) :
    Except PyErr (List Nat) := do
  let sent ← write_int 2142336875
  let vb ← write_int version
  let cb ← write_int (subs.length : Int)
  let sabs ← subsWriteTo version subs
  let isReference := match tail with | .reference _ => true | .includedTexture _ => false
  let tailByte ← byte1 (if isReference then 221 else 0)
  let tailBody ← atlasTailBody tail
  let contents := sent ++ vb ++ cb ++ sabs ++ tailByte ++ tailBody
  let sizeB ← write_int ((contents.length : Int) - 35)
  pure (sizeB ++ contents)

/-- `BinkAtlasEntry.read_from`: fatal below version 1; `originalSize` only
exists for version > 1 and `scaling` only for version > 2. -/
def binkAtlasReadFrom (rd : ReadFn σ) (s : σ) : Except PyErr (Entry × σ) := do
  let (size, s) := read_int rd s
  let (version, s) := read_int rd s
  if version < 1 then
    throw .exception
  else
    let (name, s) ← read_string rd s
    let (width, s) := read_int rd s
    let (height, s) := read_int rd s
    if version > 1 then
      let (ox, s) := read_int rd s
      let (oy, s) := read_int rd s
      if version > 2 then
        let (sc, s) ← read_single rd s
        pure (.binkAtlas size version name width height (some (ox, oy)) (some sc), s)
      else
        pure (.binkAtlas size version name width height (some (ox, oy)) none, s)
    else
      pure (.binkAtlas size version name width height none none, s)

/-- The version-gated tail of `BinkAtlasEntry.write_to`; accessing an
attribute that was never set raises `AttributeError`. -/
def binkAtlasTailPart (version : Int) (originalSize : Option (Int × Int))
    (scaling : Option Nat) : Except PyErr (List Nat) :=
  if version > 1 then
    match originalSize with
    | some (ox, oy) => do
      let xb ← write_int ox
      let yb ← write_int oy
      if version > 2 then
        match scaling with
        | some sc => pure (xb ++ yb ++ write_single sc)
        | none => throw .attributeError
      else pure (xb ++ yb)
    | none => throw .attributeError
  else pure []

/-- `BinkAtlasEntry.write_to`. -/
def binkAtlasWriteTo (size : Int) (version : Int) (name : List Nat) (width height : Int)
    (originalSize : Option (Int × Int)) (scaling : Option Nat) : Except PyErr (List Nat) := do
  let sb ← write_int size
  let vb ← write_int version
  let nb ← write_string name
  let wb ← write_int width
  let hb ← write_int height
  let tailPart ← binkAtlasTailPart version originalSize scaling
  pure (sb ++ vb ++ nb ++ wb ++ hb ++ tailPart)

/-- `IncludePackageEntry.read_from`. -/
def includeReadFrom (rd : ReadFn σ) (s : σ) : Except PyErr (Entry × σ) := do
  let (name, s) ← read_string rd s
  pure (.includePkg name, s)

/-- `SpineEntry.read_from`. -/
def spineReadFrom (rd : ReadFn σ) (s : σ) : Except PyErr (Entry × σ) := do
  let (version, s) ← ord1 rd s
  let (name, s) ← read_string rd s
  let (spineAtlas, s) ← read_big_string rd s
  let (spineData, s) ← read_big_string rd s
  pure (.spine version name spineAtlas spineData, s)

/-- `SpineEntry.write_to`. -/
def spineWriteTo (version : Nat) (name spineAtlas spineData : List Nat) :
    Except PyErr (List Nat) := do
  let vb ← byte1 version
  let nb ← write_string name
  let ab ← write_big_string spineAtlas
  let db ← write_big_string spineData
  pure (vb ++ nb ++ ab ++ db)

/-- `entries.get_entry`: dispatch on the type byte read by `read_entry`
(the entry constructors are called without a version argument, so the
default `version=7` applies). Unknown codes raise `KeyError`. -/
def getEntryParser (b : List Nat) (rd : ReadFn σ) (isManifest : Bool) (s : σ) :
    Except PyErr (Entry × σ) :=
  if b = [0xAD] then textureReadFrom rd s
  else if b = [0xAA] then texture3dReadFrom rd s
  else if b = [0xBB] then binkReadFrom rd s
  else if b = [0xDE] then atlasReadFrom rd isManifest 7 s
  else if b = [0xEE] then binkAtlasReadFrom rd s
  else if b = [0xCC] then includeReadFrom rd s
  else if b = [0xF0] then spineReadFrom rd s
  else .error .keyError

/-- `write_to` dispatch (the body bytes, not including the type byte). -/
def entryWriteTo : Entry → Except PyErr (List Nat)
  | .texture t => xnbWriteTo t
  | .texture3d t => xnbWriteTo t
  | .bink _ _ _ => binkWriteTo
  | .atlas version subs tail => atlasWriteTo version subs tail
  | .binkAtlas size version name width height os sc =>
    binkAtlasWriteTo size version name width height os sc
  | .includePkg name => write_string name
  | .spine version name spineAtlas spineData => spineWriteTo version name spineAtlas spineData


/-! ## Round-trip lemmas for the byte primitives (list streams) -/

theorem exceptBind_ok (a : α) (f : α → Except PyErr β) : (Except.ok a >>= f) = f a := rfl

theorem exceptBind_error (e : PyErr) (f : α → Except PyErr β) :
    ((Except.error e : Except PyErr α) >>= f) = .error e := rfl

theorem exceptMap_ok (g : α → β) (a : α) : (g <$> (Except.ok a : Except PyErr α)) = .ok (g a) := rfl

theorem exceptMap_error (g : α → β) (e : PyErr) :
    (g <$> (Except.error e : Except PyErr α)) = .error e := rfl

theorem listRead_of_len {n : Int} (xs rest : List Nat) (h : (xs.length : Int) = n) :
    listRead n (xs ++ rest) = (xs, rest) := by
  subst h
  simp [listRead, List.take_left, List.drop_left]

theorem natFromBE_singleton (b : Nat) : natFromBE [b] = b := by
  simp [natFromBE]

theorem write_string_ok {name bs : List Nat} (h : write_string name = .ok bs) :
    name.length ≤ 255 ∧ name.all (· < 128) = true ∧ bs = name.length :: name := by
  unfold write_string at h
  by_cases h1 : name.length > 255
  · simp [h1] at h
  · simp only [h1, if_neg, not_false_iff, reduceIte] at h
    unfold asciiEncode at h
    by_cases h2 : name.all (· < 128)
    · simp only [h2, if_pos, reduceIte] at h
      unfold byte1 at h
      have h3 : name.length < 256 := by omega
      simp only [h3, if_pos, reduceIte] at h
      simp only [exceptBind_ok] at h
      refine ⟨by omega, h2, ?_⟩
      cases h
      rfl
    · simp [h2, exceptBind_error, exceptMap_error, Except.bind, Bind.bind] at h

theorem read_string_rt {name bs : List Nat} (rest : List Nat)
    (h : write_string name = .ok bs) :
    read_string listRead (bs ++ rest) = .ok (name, rest) := by
  obtain ⟨hlen, hascii, hbs⟩ := write_string_ok h
  subst hbs
  unfold read_string
  rw [show ((name.length :: name) ++ rest) = [name.length] ++ (name ++ rest) by simp]
  rw [listRead_of_len [name.length] (name ++ rest) (by simp)]
  dsimp only
  simp only [natFromBE_singleton]
  rw [listRead_of_len name rest rfl]
  simp [asciiDecode, hascii]

theorem be4_length (m : Nat) : (be4 m).length = 4 := by
  simp [be4]

theorem natFromBE_be4 {m : Nat} (h : m < 4294967296) : natFromBE (be4 m) = m := by
  simp only [natFromBE, be4, List.foldl]
  norm_num
  omega

theorem int4enc_ok {n : Int} {bs : List Nat} (h : int4enc n = .ok bs) :
    -(2 ^ 31) ≤ n ∧ n < 2 ^ 31 ∧ bs = be4 ((n % (2 ^ 32 : Nat)).toNat) := by
  unfold int4enc at h
  split at h
  next hcond => exact ⟨hcond.1, hcond.2, by cases h; rfl⟩
  next hcond => exact Except.noConfusion h

theorem intFromBEsigned_be4 {n : Int} (h1 : -(2 ^ 31) ≤ n) (h2 : n < 2 ^ 31) :
    intFromBEsigned (be4 ((n % (2 ^ 32 : Nat)).toNat)) = n := by
  have h32 : ((2 ^ 32 : Nat) : Int) = 4294967296 := by norm_num
  have hmlt : (n % ((2 ^ 32 : Nat) : Int)).toNat < 4294967296 := by
    rw [h32]
    omega
  unfold intFromBEsigned
  rw [natFromBE_be4 hmlt, be4_length]
  rw [h32] at *
  have h31 : (2 : Int) ^ 31 = 2147483648 := by norm_num
  rw [h31] at h1 h2
  by_cases hpos : 0 ≤ n
  · have hn : n % 4294967296 = n := by omega
    have ht : ((n % 4294967296).toNat : Int) = n := by omega
    have hlt : ¬ (2 * (n % 4294967296).toNat ≥ 256 ^ 4) := by norm_num; omega
    simp only [hlt, if_neg, reduceIte]
    omega
  · have hn : n % 4294967296 = n + 4294967296 := by omega
    have hge : 2 * (n % 4294967296).toNat ≥ 256 ^ 4 := by norm_num; omega
    simp only [hge, if_pos, reduceIte]
    norm_num
    omega

theorem read_int_rt {n : Int} {bs : List Nat} (rest : List Nat) (h : int4enc n = .ok bs) :
    read_int listRead (bs ++ rest) = (n, rest) := by
  obtain ⟨h1, h2, hbs⟩ := int4enc_ok h
  subst hbs
  unfold read_int
  rw [listRead_of_len _ rest (by rw [be4_length]; norm_num)]
  dsimp only
  rw [intFromBEsigned_be4 h1 h2]

theorem read_single_rt {w : Nat} (rest : List Nat) (h : w < 4294967296) :
    read_single listRead (write_single w ++ rest) = .ok (w, rest) := by
  unfold read_single write_single
  rw [listRead_of_len _ rest (by rw [be4_length]; norm_num)]
  simp [be4_length, natFromBE_be4 h]

theorem ord1_cons (b : Nat) (rest : List Nat) : ord1 listRead (b :: rest) = .ok (b, rest) :=
  rfl

theorem byte1_ok {v : Nat} {bs : List Nat} (h : byte1 v = .ok bs) : v < 256 ∧ bs = [v] := by
  unfold byte1 at h
  by_cases h1 : v < 256
  · simp only [h1, if_pos, reduceIte] at h
    exact ⟨h1, by cases h; rfl⟩
  · simp [h1] at h

theorem utf8Encode_ascii {s : List Nat} (h : s.all (· < 128) = true) : utf8Encode s = s := by
  induction s with
  | nil => rfl
  | cons c r ih =>
    simp only [List.all_cons, Bool.and_eq_true, decide_eq_true_eq] at h
    unfold utf8Encode at *
    simp only [List.flatMap_cons]
    rw [ih h.2]
    unfold utf8EncodeChar
    have hc : c < 0x80 := h.1
    simp [hc]

theorem utf8DecodeChar_ascii {c : Nat} (hc : c < 128) (r : List Nat) :
    utf8DecodeChar (c :: r) = .ok (c, r) := by
  unfold utf8DecodeChar
  dsimp only
  rw [if_pos hc]

theorem utf8DecodeLoop_ascii {s : List Nat} (h : s.all (· < 128) = true) :
    utf8DecodeLoop s.length s = .ok s := by
  induction s with
  | nil => rfl
  | cons c r ih =>
    simp only [List.all_cons, Bool.and_eq_true, decide_eq_true_eq] at h
    show utf8DecodeLoop (r.length + 1) (c :: r) = .ok (c :: r)
    rw [utf8DecodeLoop, utf8DecodeChar_ascii h.1, exceptBind_ok]
    dsimp only
    rw [ih h.2, exceptBind_ok]
    rfl

theorem utf8Decode_ascii {s : List Nat} (h : s.all (· < 128) = true) : utf8Decode s = .ok s :=
  utf8DecodeLoop_ascii h

theorem write_big_string_ok {s bs : List Nat} (h : write_big_string s = .ok bs) :
    (s.length : Int) < 2 ^ 31 ∧
      bs = be4 (((s.length : Int) % (2 ^ 32 : Nat)).toNat) ++ utf8Encode s := by
  unfold write_big_string at h
  cases henc : int4enc (s.length : Int) with
  | error e =>
    rw [henc] at h
    simp [exceptBind_error] at h
  | ok lb =>
    rw [henc] at h
    simp only [exceptBind_ok] at h
    obtain ⟨hr1, hr2, hlb⟩ := int4enc_ok henc
    subst hlb
    cases h
    exact ⟨hr2, rfl⟩

theorem read_big_string_rt {s bs : List Nat} (rest : List Nat)
    (h : write_big_string s = .ok bs) (hascii : s.all (· < 128) = true) :
    read_big_string listRead (bs ++ rest) = .ok (s, rest) := by
  obtain ⟨hlen, hbs⟩ := write_big_string_ok h
  subst hbs
  rw [utf8Encode_ascii hascii]
  unfold read_big_string
  rw [List.append_assoc]
  rw [listRead_of_len _ (s ++ rest) (by rw [be4_length]; norm_num)]
  dsimp only
  have hnn : (0 : Int) ≤ (s.length : Int) := Int.natCast_nonneg _
  rw [intFromBEsigned_be4 (by omega) hlen]
  rw [listRead_of_len s rest rfl]
  simp [utf8Decode_ascii hascii]

/-! ## Entry round-trips -/

theorem exceptBind_eq_ok {e : Except PyErr α} {f : α → Except PyErr β} {b : β}
    (h : (e >>= f) = .ok b) : ∃ a, e = .ok a ∧ f a = .ok b := by
  cases e with
  | ok a => exact ⟨a, rfl, by rw [exceptBind_ok] at h; exact h⟩
  | error e => rw [exceptBind_error] at h; exact Except.noConfusion h

theorem xnbReadFrom_rt {t : TextureRec} {bs : List Nat} (rest : List Nat)
    (h : xnbWriteTo t = .ok bs) (hsz : (t.data.length : Int) = t.size) :
    xnbReadFrom listRead (bs ++ rest) = .ok (t, rest) := by
  unfold xnbWriteTo at h
  obtain ⟨nb, hn, h⟩ := exceptBind_eq_ok h
  obtain ⟨sb, hs, h⟩ := exceptBind_eq_ok h
  have hbs : bs = nb ++ sb ++ t.data := by
    cases h
    rfl
  subst hbs
  unfold xnbReadFrom
  rw [show nb ++ sb ++ t.data ++ rest = nb ++ (sb ++ (t.data ++ rest)) by
    simp [List.append_assoc]]
  rw [read_string_rt _ hn, exceptBind_ok]
  dsimp only
  unfold write_int at hs
  rw [read_int_rt _ hs]
  dsimp only
  rw [listRead_of_len t.data rest hsz]
  rfl

theorem textureReadFrom_rt {t : TextureRec} {bs : List Nat} (rest : List Nat)
    (h : xnbWriteTo t = .ok bs) (hsz : (t.data.length : Int) = t.size) :
    textureReadFrom listRead (bs ++ rest) = .ok (.texture t, rest) := by
  unfold textureReadFrom
  rw [xnbReadFrom_rt rest h hsz]
  rfl

theorem texture3dReadFrom_rt {t : TextureRec} {bs : List Nat} (rest : List Nat)
    (h : xnbWriteTo t = .ok bs) (hsz : (t.data.length : Int) = t.size) :
    texture3dReadFrom listRead (bs ++ rest) = .ok (.texture3d t, rest) := by
  unfold texture3dReadFrom
  rw [xnbReadFrom_rt rest h hsz]
  rfl

theorem includeReadFrom_rt {name bs : List Nat} (rest : List Nat)
    (h : write_string name = .ok bs) :
    includeReadFrom listRead (bs ++ rest) = .ok (.includePkg name, rest) := by
  unfold includeReadFrom
  rw [read_string_rt _ h, exceptBind_ok]
  rfl

theorem spineReadFrom_rt {version : Nat} {name spineAtlas spineData bs : List Nat}
    (rest : List Nat)
    (h : spineWriteTo version name spineAtlas spineData = .ok bs)
    (hAtlas : spineAtlas.all (· < 128) = true) (hData : spineData.all (· < 128) = true) :
    spineReadFrom listRead (bs ++ rest) = .ok (.spine version name spineAtlas spineData, rest) := by
  unfold spineWriteTo at h
  obtain ⟨vb, hv, h⟩ := exceptBind_eq_ok h
  obtain ⟨nb, hn, h⟩ := exceptBind_eq_ok h
  obtain ⟨ab, ha, h⟩ := exceptBind_eq_ok h
  obtain ⟨db, hd, h⟩ := exceptBind_eq_ok h
  obtain ⟨hvlt, hvb⟩ := byte1_ok hv
  have hbs : bs = vb ++ nb ++ ab ++ db := by
    cases h
    rfl
  subst hbs hvb
  unfold spineReadFrom
  rw [show [version] ++ nb ++ ab ++ db ++ rest = version :: (nb ++ (ab ++ (db ++ rest))) by
    simp [List.append_assoc]]
  rw [ord1_cons, exceptBind_ok]
  dsimp only
  rw [read_string_rt _ hn, exceptBind_ok]
  dsimp only
  rw [read_big_string_rt _ ha hAtlas, exceptBind_ok]
  dsimp only
  rw [read_big_string_rt _ hd hData, exceptBind_ok]
  rfl

theorem binkAtlasReadFrom_rt {size version : Int} {name : List Nat} {width height : Int}
    {os : Option (Int × Int)} {sc : Option Nat} {bs : List Nat} (rest : List Nat)
    (h : binkAtlasWriteTo size version name width height os sc = .ok bs)
    (hver : 1 ≤ version)
    (hos : version ≤ 1 → os = none) (hsc : version ≤ 2 → sc = none)
    (hscw : ∀ w, sc = some w → w < 4294967296) :
    binkAtlasReadFrom listRead (bs ++ rest) =
      .ok (.binkAtlas size version name width height os sc, rest) := by
  unfold binkAtlasWriteTo at h
  obtain ⟨sb, hsb, h1⟩ := exceptBind_eq_ok h
  clear h
  obtain ⟨vb, hvb, h2⟩ := exceptBind_eq_ok h1
  clear h1
  obtain ⟨nb, hnb, h3⟩ := exceptBind_eq_ok h2
  clear h2
  obtain ⟨wb, hwb, h4⟩ := exceptBind_eq_ok h3
  clear h3
  obtain ⟨hb, hhb, h5⟩ := exceptBind_eq_ok h4
  clear h4
  obtain ⟨tp, htp, h6⟩ := exceptBind_eq_ok h5
  clear h5
  unfold binkAtlasTailPart at htp
  simp only [pure, Except.pure, Except.ok.injEq] at h6
  subst h6
  unfold binkAtlasReadFrom
  unfold write_int at hsb hvb hwb hhb
  rw [show sb ++ vb ++ nb ++ wb ++ hb ++ tp ++ rest
      = sb ++ (vb ++ (nb ++ (wb ++ (hb ++ (tp ++ rest))))) by simp [List.append_assoc]]
  rw [read_int_rt _ hsb]
  dsimp only
  rw [read_int_rt _ hvb]
  dsimp only
  rw [if_neg (by omega : ¬ version < 1)]
  rw [read_string_rt _ hnb, exceptBind_ok]
  dsimp only
  rw [read_int_rt _ hwb]
  dsimp only
  rw [read_int_rt _ hhb]
  dsimp only
  by_cases hv1 : version > 1
  · rw [if_pos hv1] at htp ⊢
    cases os with
    | none => exact absurd htp (by simp)
    | some p =>
      obtain ⟨ox, oy⟩ := p
      obtain ⟨xb, hxb, htp1⟩ := exceptBind_eq_ok htp
      clear htp
      obtain ⟨yb, hyb, htp2⟩ := exceptBind_eq_ok htp1
      clear htp1
      unfold write_int at hxb hyb
      by_cases hv2 : version > 2
      · rw [if_pos hv2] at htp2 ⊢
        cases sc with
        | none => exact absurd htp2 (by simp)
        | some w =>
          simp only [pure, Except.pure, Except.ok.injEq] at htp2
          subst htp2
          rw [show (xb ++ yb ++ write_single w) ++ rest
              = xb ++ (yb ++ (write_single w ++ rest)) by simp [List.append_assoc]]
          rw [read_int_rt _ hxb]
          dsimp only
          rw [read_int_rt _ hyb]
          dsimp only
          rw [read_single_rt rest (hscw w rfl), exceptBind_ok]
          rfl
      · rw [if_neg hv2] at htp2 ⊢
        have hscn : sc = none := hsc (by omega)
        subst hscn
        simp only [pure, Except.pure, Except.ok.injEq] at htp2
        subst htp2
        rw [show (xb ++ yb) ++ rest = xb ++ (yb ++ rest) by simp [List.append_assoc]]
        rw [read_int_rt _ hxb]
        dsimp only
        rw [read_int_rt _ hyb]
        rfl
  · rw [if_neg hv1] at htp ⊢
    have hosn : os = none := hos (by omega)
    have hscn : sc = none := hsc (by omega)
    subst hosn hscn
    simp only [pure, Except.pure, Except.ok.injEq] at htp
    subst htp
    rw [List.nil_append]
    rfl

/-- The conditions under which a sub-atlas record survives the version
gating of `read_from` unchanged: flags only exist on the wire for
`version > 1` (bit 4 only for `version > 3`) and the hull only for
`version > 2`; the float patterns fit in 32 bits. -/
def subAtlasWF (version : Int) (sa : SubAtlas) : Prop :=
  (version ≤ 1 → sa.isMulti = false ∧ sa.isMip = false) ∧
  (version ≤ 3 → sa.isAlpha8 = false) ∧
  (version ≤ 2 → sa.hull = []) ∧
  sa.scaleRatioX < 4294967296 ∧ sa.scaleRatioY < 4294967296

theorem readHullPoints_rt {hull : List (Int × Int)} {bs : List Nat} (rest : List Nat)
    (h : hullWriteTo hull = .ok bs) :
    readHullPoints listRead hull.length (bs ++ rest) = (hull, rest) := by
  induction hull generalizing bs rest with
  | nil =>
    cases h
    rfl
  | cons p r ih =>
    obtain ⟨x, y⟩ := p
    unfold hullWriteTo at h
    obtain ⟨xb, hxb, h1⟩ := exceptBind_eq_ok h
    clear h
    obtain ⟨yb, hyb, h2⟩ := exceptBind_eq_ok h1
    clear h1
    obtain ⟨rb, hrb, h3⟩ := exceptBind_eq_ok h2
    clear h2
    simp only [pure, Except.pure, Except.ok.injEq] at h3
    subst h3
    unfold write_int at hxb hyb
    show readHullPoints listRead (r.length + 1) (xb ++ yb ++ rb ++ rest) = ((x, y) :: r, rest)
    rw [readHullPoints]
    rw [show xb ++ yb ++ rb ++ rest = xb ++ (yb ++ (rb ++ rest)) by simp [List.append_assoc]]
    rw [read_int_rt _ hxb]
    dsimp only
    rw [read_int_rt _ hyb]
    dsimp only
    rw [ih rest hrb]

theorem flags_bits (m i a : Bool) :
    decide (((if m then 1 else 0) + (if i then 2 else 0) + (if a then 4 else 0)) &&& 1 ≠ 0) = m ∧
    decide (((if m then 1 else 0) + (if i then 2 else 0) + (if a then 4 else 0)) &&& 2 ≠ 0) = i ∧
    decide (((if m then 1 else 0) + (if i then 2 else 0) + (if a then 4 else 0)) &&& 4 ≠ 0) = a := by
  cases m <;> cases i <;> cases a <;> decide

theorem subAtlasReadFrom_rt {version : Int} {sa : SubAtlas} {bs : List Nat} (rest : List Nat)
    (h : subAtlasWriteTo version sa = .ok bs) (hwf : subAtlasWF version sa) :
    subAtlasReadFrom listRead version (bs ++ rest) = .ok (sa, rest) := by
  obtain ⟨na, rx, ry, rcw, rch, tlx, tly, osx, osy, srx, sry, im, ip, ia, hu⟩ := sa
  obtain ⟨hb1, hb3, hhull, hsrx, hsry⟩ := hwf
  unfold subAtlasWriteTo at h
  obtain ⟨nb, hnb, e1⟩ := exceptBind_eq_ok h
  clear h
  obtain ⟨b1, h1, e2⟩ := exceptBind_eq_ok e1
  clear e1
  obtain ⟨b2, h2, e3⟩ := exceptBind_eq_ok e2
  clear e2
  obtain ⟨b3, h3, e4⟩ := exceptBind_eq_ok e3
  clear e3
  obtain ⟨b4, h4, e5⟩ := exceptBind_eq_ok e4
  clear e4
  obtain ⟨b5, h5, e6⟩ := exceptBind_eq_ok e5
  clear e5
  obtain ⟨b6, h6, e7⟩ := exceptBind_eq_ok e6
  clear e6
  obtain ⟨b7, h7, e8⟩ := exceptBind_eq_ok e7
  clear e7
  obtain ⟨b8, h8, e9⟩ := exceptBind_eq_ok e8
  clear e8
  obtain ⟨fp, hfp, e10⟩ := exceptBind_eq_ok e9
  clear e9
  obtain ⟨hp, hhp, e11⟩ := exceptBind_eq_ok e10
  clear e10
  simp only [pure, Except.pure, Except.ok.injEq] at e11
  subst e11
  unfold write_int at h1 h2 h3 h4 h5 h6 h7 h8
  unfold subAtlasReadFrom
  rw [show nb ++ b1 ++ b2 ++ b3 ++ b4 ++ b5 ++ b6 ++ b7 ++ b8 ++ write_single srx ++
      write_single sry ++ fp ++ hp ++ rest
      = nb ++ (b1 ++ (b2 ++ (b3 ++ (b4 ++ (b5 ++ (b6 ++ (b7 ++ (b8 ++
        (write_single srx ++ (write_single sry ++ (fp ++ (hp ++ rest))))))))))))
      by simp [List.append_assoc]]
  rw [read_string_rt _ hnb, exceptBind_ok]
  dsimp only
  rw [read_int_rt _ h1]
  dsimp only
  rw [read_int_rt _ h2]
  dsimp only
  rw [read_int_rt _ h3]
  dsimp only
  rw [read_int_rt _ h4]
  dsimp only
  rw [read_int_rt _ h5]
  dsimp only
  rw [read_int_rt _ h6]
  dsimp only
  rw [read_int_rt _ h7]
  dsimp only
  rw [read_int_rt _ h8]
  dsimp only
  rw [read_single_rt _ hsrx, exceptBind_ok]
  dsimp only
  rw [read_single_rt _ hsry, exceptBind_ok]
  dsimp only
  unfold subAtlasFlagsPart at hfp
  unfold subAtlasHullPart at hhp
  by_cases h0 : version > 0
  · rw [if_pos h0] at hfp ⊢
    obtain ⟨hflt, hfpv⟩ := byte1_ok hfp
    subst hfpv
    rw [List.singleton_append, ord1_cons, exceptBind_ok]
    dsimp only
    by_cases h2v : version > 2
    · rw [if_pos h2v] at hhp ⊢
      obtain ⟨hc, hhc, g1⟩ := exceptBind_eq_ok hhp
      clear hhp
      obtain ⟨pts, hpts, g2⟩ := exceptBind_eq_ok g1
      clear g1
      simp only [pure, Except.pure, Except.ok.injEq] at g2
      subst g2
      unfold write_int at hhc
      rw [show (hc ++ pts) ++ rest = hc ++ (pts ++ rest) by simp [List.append_assoc]]
      rw [read_int_rt _ hhc]
      dsimp only
      rw [Int.toNat_natCast, readHullPoints_rt rest hpts]
      dsimp only
      have hv1 : version > 1 := by omega
      rw [if_pos hv1, if_pos hv1]
      rw [(flags_bits im ip ia).1, (flags_bits im ip ia).2.1]
      by_cases h3v : version > 3
      · rw [if_pos (⟨hv1, h3v⟩ : version > 1 ∧ version > 3)]
        rw [(flags_bits im ip ia).2.2]
        rfl
      · rw [if_neg (by omega : ¬ (version > 1 ∧ version > 3))]
        have hia : ia = false := hb3 (by omega)
        subst hia
        rfl
    · rw [if_neg h2v] at hhp ⊢
      simp only [pure, Except.pure, Except.ok.injEq] at hhp
      subst hhp
      rw [List.nil_append]
      have hhe : hu = [] := hhull (by omega)
      subst hhe
      have hia : ia = false := hb3 (by omega)
      subst hia
      by_cases h1v : version > 1
      · rw [if_pos h1v, if_pos h1v]
        rw [(flags_bits im ip false).1, (flags_bits im ip false).2.1]
        rw [if_neg (by omega : ¬ (version > 1 ∧ version > 3))]
        rfl
      · obtain ⟨hm, hi⟩ := hb1 (by omega)
        subst hm hi
        rw [if_neg h1v, if_neg h1v]
        rw [if_neg (by omega : ¬ (version > 1 ∧ version > 3))]
        rfl
  · rw [if_neg h0] at hfp ⊢
    simp only [pure, Except.pure, Except.ok.injEq] at hfp
    subst hfp
    rw [if_neg (by omega : ¬ version > 2)] at hhp
    simp only [pure, Except.pure, Except.ok.injEq] at hhp
    subst hhp
    obtain ⟨hm, hi⟩ := hb1 (by omega)
    subst hm hi
    have hia : ia = false := hb3 (by omega)
    subst hia
    have hhe : hu = [] := hhull (by omega)
    subst hhe
    rw [List.nil_append, List.nil_append]
    rfl

theorem subAtlasLoop_rt {version : Int} {subs : List SubAtlas} {bs : List Nat} (rest : List Nat)
    (h : subsWriteTo version subs = .ok bs) (hwf : ∀ sa ∈ subs, subAtlasWF version sa) :
    subAtlasLoop listRead version subs.length (bs ++ rest) = .ok (subs, rest) := by
  induction subs generalizing bs rest with
  | nil =>
    cases h
    rfl
  | cons sa r ih =>
    unfold subsWriteTo at h
    obtain ⟨sb, hsb, e1⟩ := exceptBind_eq_ok h
    clear h
    obtain ⟨rb, hrb, e2⟩ := exceptBind_eq_ok e1
    clear e1
    simp only [pure, Except.pure, Except.ok.injEq] at e2
    subst e2
    show subAtlasLoop listRead version (r.length + 1) (sb ++ rb ++ rest) = .ok (sa :: r, rest)
    rw [subAtlasLoop]
    rw [show sb ++ rb ++ rest = sb ++ (rb ++ rest) by simp [List.append_assoc]]
    rw [subAtlasReadFrom_rt _ hsb (hwf sa (by simp)), exceptBind_ok]
    dsimp only
    rw [ih rest hrb (fun x hx => hwf x (by simp [hx])), exceptBind_ok]
    rfl

theorem atlasReadFrom_rt {version : Int} {subs : List SubAtlas} {tail : AtlasTail}
    {bs : List Nat} (rest : List Nat)
    (h : atlasWriteTo version subs tail = .ok bs)
    (hwf : ∀ sa ∈ subs, subAtlasWF version sa)
    (htail : ∀ tex, tail = .includedTexture tex → (tex.data.length : Int) = tex.size) :
    atlasReadFrom listRead false 7 (bs ++ rest) = .ok (.atlas version subs tail, rest) := by
  unfold atlasWriteTo at h
  obtain ⟨sent, hsent, e1⟩ := exceptBind_eq_ok h
  clear h
  obtain ⟨vb, hvb, e2⟩ := exceptBind_eq_ok e1
  clear e1
  obtain ⟨cb, hcb, e3⟩ := exceptBind_eq_ok e2
  clear e2
  obtain ⟨sabs, hsabs, e4⟩ := exceptBind_eq_ok e3
  clear e3
  obtain ⟨tby, htby, e5⟩ := exceptBind_eq_ok e4
  clear e4
  obtain ⟨tbd, htbd, e6⟩ := exceptBind_eq_ok e5
  clear e5
  obtain ⟨szb, hszb, e7⟩ := exceptBind_eq_ok e6
  clear e6
  simp only [pure, Except.pure, Except.ok.injEq] at e7
  subst e7
  unfold write_int at hsent hvb hcb hszb
  obtain ⟨hsz1, hsz2, hszv⟩ := int4enc_ok hszb
  obtain ⟨hse1, hse2, hsev⟩ := int4enc_ok hsent
  unfold atlasReadFrom
  rw [show szb ++ (sent ++ vb ++ cb ++ sabs ++ tby ++ tbd) ++ rest
      = szb ++ (sent ++ (vb ++ (cb ++ (sabs ++ (tby ++ (tbd ++ rest))))))
      by simp [List.append_assoc]]
  rw [listRead_of_len szb _ (by rw [hszv, be4_length]; norm_num)]
  dsimp only
  rw [listRead_of_len sent _ (by rw [hsev, be4_length]; norm_num)]
  dsimp only
  have hsentval : natFromBE sent = 2142336875 := by
    have hm2 : ((2142336875 : Int) % ((2 ^ 32 : Nat) : Int)).toNat = 2142336875 := by decide
    rw [hsev, hm2, natFromBE_be4 (by norm_num)]
  rw [hsentval]
  rw [if_pos rfl]
  rw [read_int_rt _ hvb]
  dsimp only
  rw [read_int_rt _ hcb]
  dsimp only
  rw [Int.toNat_natCast]
  rw [subAtlasLoop_rt _ hsabs hwf, exceptBind_ok]
  dsimp only
  cases tail with
  | reference rname =>
    simp only [atlasTailBody] at htbd
    have htbyv : tby = [221] := by
      obtain ⟨hlt, hv⟩ := byte1_ok htby
      simpa using hv
    subst htbyv
    rw [List.singleton_append]
    rw [show (221 : Nat) :: (tbd ++ rest) = [221] ++ (tbd ++ rest) by simp]
    rw [listRead_of_len [221] _ (by norm_num)]
    dsimp only
    rw [natFromBE_singleton]
    rw [if_pos (by norm_num)]
    rw [read_string_rt _ htbd, exceptBind_ok]
    rfl
  | includedTexture tex =>
    simp only [atlasTailBody] at htbd
    have htbyv : tby = [0] := by
      obtain ⟨hlt, hv⟩ := byte1_ok htby
      simpa using hv
    subst htbyv
    rw [List.singleton_append]
    rw [show (0 : Nat) :: (tbd ++ rest) = [0] ++ (tbd ++ rest) by simp]
    rw [listRead_of_len [0] _ (by norm_num)]
    dsimp only
    rw [natFromBE_singleton]
    rw [if_neg (by norm_num)]
    rw [xnbReadFrom_rt rest htbd (htail tex rfl), exceptBind_ok]
    rfl

instance {ε α : Type} [DecidableEq ε] [DecidableEq α] : DecidableEq (Except ε α) := fun a b =>
  match a, b with
  | .ok x, .ok y =>
    if h : x = y then .isTrue (by rw [h]) else .isFalse (fun hc => by cases hc; exact h rfl)
  | .error x, .error y =>
    if h : x = y then .isTrue (by rw [h]) else .isFalse (fun hc => by cases hc; exact h rfl)
  | .ok _, .error _ => .isFalse (fun hc => by cases hc)
  | .error _, .ok _ => .isFalse (fun hc => by cases hc)

/-- C1 (amended): writing an entry body with `write_to` and reading it
back with the corresponding `read_from` yields a deep-equal record —
including nested sub-atlases and an embedded texture owned by an atlas
entry — for the entry types texture, texture3d, atlas, binkAtlas and
include, for every entry whose fields respect the version gating
(`subAtlasWF`, presence of the version-gated binkAtlas attributes) and
whose XNB `size` field equals its payload length, and for spine entries
whose big-string fields are ASCII.  Two entry classes the claim covers do
NOT round-trip (see the counterexample): bink entries, whose `write_to`
is a no-op, and spine entries with a non-ASCII big-string field, because
`write_big_string` writes `len(s)` — the code-point count — as the length
prefix of a UTF-8 body that is longer, so `read_big_string` reads too few
bytes and its UTF-8 decode raises.  The ASCII hypothesis on the spine
conjunct is exactly the boundary of that failure: the prefix equals the
byte count precisely when every code point is below 128. -/
theorem C1_entry_roundtrip_amended :
    (∀ (t : TextureRec) (bs rest : List Nat), xnbWriteTo t = .ok bs →
      (t.data.length : Int) = t.size →
      textureReadFrom listRead (bs ++ rest) = .ok (.texture t, rest)) ∧
    (∀ (t : TextureRec) (bs rest : List Nat), xnbWriteTo t = .ok bs →
      (t.data.length : Int) = t.size →
      texture3dReadFrom listRead (bs ++ rest) = .ok (.texture3d t, rest)) ∧
    (∀ (version : Int) (subs : List SubAtlas) (tail : AtlasTail) (bs rest : List Nat),
      atlasWriteTo version subs tail = .ok bs →
      (∀ sa ∈ subs, subAtlasWF version sa) →
      (∀ tex, tail = .includedTexture tex → (tex.data.length : Int) = tex.size) →
      atlasReadFrom listRead false 7 (bs ++ rest) = .ok (.atlas version subs tail, rest)) ∧
    (∀ (size version : Int) (name : List Nat) (width height : Int)
      (os : Option (Int × Int)) (sc : Option Nat) (bs rest : List Nat),
      binkAtlasWriteTo size version name width height os sc = .ok bs →
      1 ≤ version → (version ≤ 1 → os = none) → (version ≤ 2 → sc = none) →
      (∀ w, sc = some w → w < 4294967296) →
      binkAtlasReadFrom listRead (bs ++ rest) =
        .ok (.binkAtlas size version name width height os sc, rest)) ∧
    (∀ (name bs rest : List Nat), write_string name = .ok bs →
      includeReadFrom listRead (bs ++ rest) = .ok (.includePkg name, rest)) ∧
    (∀ (version : Nat) (name spineAtlas spineData bs rest : List Nat),
      spineWriteTo version name spineAtlas spineData = .ok bs →
      spineAtlas.all (· < 128) = true → spineData.all (· < 128) = true →
      spineReadFrom listRead (bs ++ rest) = .ok (.spine version name spineAtlas spineData, rest)) := by
  refine ⟨?_, ?_, ?_, ?_, ?_, ?_⟩
  · intro t bs rest h hsz
    exact textureReadFrom_rt rest h hsz
  · intro t bs rest h hsz
    exact texture3dReadFrom_rt rest h hsz
  · intro version subs tail bs rest h hwf htail
    exact atlasReadFrom_rt rest h hwf htail
  · intro size version name width height os sc bs rest h hver hos hsc hscw
    exact binkAtlasReadFrom_rt rest h hver hos hsc hscw
  · intro name bs rest h
    exact includeReadFrom_rt rest h
  · intro version name spineAtlas spineData bs rest h ha hd
    exact spineReadFrom_rt rest h ha hd

/-- Witness for C1 (amended) at concrete entries of each covered type,
including a version-4 atlas owning an embedded texture, a sub-atlas with
flags and a hull, and a version-3 bink atlas with both optional fields. -/
theorem C1_entry_roundtrip_amended_witness :
    textureReadFrom listRead ([1, 97, 0, 0, 0, 1, 5] ++ [255]) =
      .ok (.texture ⟨[97], 1, [5]⟩, [255]) ∧
    texture3dReadFrom listRead ([1, 97, 0, 0, 0, 1, 5] ++ [255]) =
      .ok (.texture3d ⟨[97], 1, [5]⟩, [255]) ∧
    atlasReadFrom listRead false 7
      ([0, 0, 0, 40, 127, 177, 119, 107, 0, 0, 0, 4, 0, 0, 0, 1, 1, 97, 0, 0, 0, 1, 0, 0, 0, 2,
        0, 0, 0, 3, 0, 0, 0, 4, 0, 0, 0, 5, 0, 0, 0, 6, 0, 0, 0, 7, 0, 0, 0, 8, 63, 128, 0, 0,
        64, 0, 0, 0, 5, 0, 0, 0, 1, 0, 0, 0, 9, 0, 0, 0, 10, 0, 1, 116, 0, 0, 0, 1, 5] ++ [255]) =
      .ok (.atlas 4 [⟨[97], 1, 2, 3, 4, 5, 6, 7, 8, 0x3F800000, 0x40000000, true, false, true,
        [(9, 10)]⟩] (.includedTexture ⟨[116], 1, [5]⟩), [255]) ∧
    binkAtlasReadFrom listRead
      ([0, 0, 0, 10, 0, 0, 0, 3, 1, 98, 0, 0, 0, 2, 0, 0, 0, 3, 0, 0, 0, 4, 0, 0, 0, 5,
        63, 128, 0, 0] ++ [255]) =
      .ok (.binkAtlas 10 3 [98] 2 3 (some (4, 5)) (some 0x3F800000), [255]) ∧
    includeReadFrom listRead ([1, 97] ++ [255]) = .ok (.includePkg [97], [255]) ∧
    spineReadFrom listRead ([1, 1, 115, 0, 0, 0, 1, 97, 0, 0, 0, 1, 98] ++ [255]) =
      .ok (.spine 1 [115] [97] [98], [255]) := by
  refine ⟨?_, ?_, ?_, ?_, ?_, ?_⟩
  · exact C1_entry_roundtrip_amended.1 ⟨[97], 1, [5]⟩ _ [255] (by decide) (by decide)
  · exact C1_entry_roundtrip_amended.2.1 ⟨[97], 1, [5]⟩ _ [255] (by decide) (by decide)
  · exact C1_entry_roundtrip_amended.2.2.1 4
      [⟨[97], 1, 2, 3, 4, 5, 6, 7, 8, 0x3F800000, 0x40000000, true, false, true, [(9, 10)]⟩]
      (.includedTexture ⟨[116], 1, [5]⟩) _ [255] (by decide)
      (by intro sa hsa; simp at hsa; subst hsa; refine ⟨by omega, by omega, by omega, by decide, by decide⟩)
      (by intro tex htex; cases htex; decide)
  · exact C1_entry_roundtrip_amended.2.2.2.1 10 3 [98] 2 3 (some (4, 5)) (some 0x3F800000) _
      [255] (by decide) (by omega) (by omega) (by omega) (by intro w hw; cases hw; decide)
  · exact C1_entry_roundtrip_amended.2.2.2.2.1 [97] _ [255] (by decide)
  · exact C1_entry_roundtrip_amended.2.2.2.2.2 1 [115] [97] [98] _ [255] (by decide) (by decide)
      (by decide)

/-- C1 counterexample, both failing classes.  Bink: `BinkEntry.write_to`
emits nothing, so writing the bink entry with name "a" and isAlpha set
and reading the result back yields a different record (empty name,
isAlpha cleared).  Spine: the entry with `spineAtlas = "é"` (code point
0xE9, a legal one-character big string) writes a length prefix of 1 over
the 2-byte UTF-8 body C3 A9, so reading the written bytes back truncates
the body to C3 and the UTF-8 decode fails with a UnicodeDecodeError —
and this entry lies outside the ASCII condition of the amended
theorem. -/
theorem C1_bink_no_roundtrip :
    entryWriteTo (.bink true f32one [97]) = .ok [] ∧
    binkReadFrom listRead ([] ++ []) = .ok (.bink false f32one [], []) ∧
    Entry.bink false f32one [] ≠ Entry.bink true f32one [97] ∧
    entryWriteTo (.spine 1 [115] [0xE9] [98]) =
      .ok [1, 1, 115, 0, 0, 0, 1, 0xC3, 0xA9, 0, 0, 0, 1, 98] ∧
    spineReadFrom listRead [1, 1, 115, 0, 0, 0, 1, 0xC3, 0xA9, 0, 0, 0, 1, 98] =
      .error .unicodeError ∧
    ¬ ([0xE9].all (· < 128) = true) := by
  refine ⟨rfl, by decide, by decide, by decide, by decide, by decide⟩

/-! ## Raw file streams and chunk processors (compression.py)

The chunk processors work on the raw `FileIO` stream.  A raw stream is the
whole file plus a cursor; reads return at most the requested bytes and
move the cursor, `seek` is unchecked (Python allows seeking past EOF). -/

/-- The raw file: contents plus cursor. -/
structure RawS where
  data : List Nat
  pos : Nat
deriving DecidableEq, Repr

/-- `FileIO.read(n)`: up to `n` bytes from the cursor (all remaining bytes
for a negative `n`). -/
def RawS.read (n : Int) (s : RawS) : List Nat × RawS :=
  if n < 0 then (s.data.drop s.pos, { s with pos := s.data.length })
  else ((s.data.drop s.pos).take n.toNat, { s with pos := min (s.pos + n.toNat) s.data.length })

/-- The raw stream as a `ReadFn`, so the `IOExtensionMixin` helpers apply. -/
def rawRead : ReadFn RawS :=
  fun n s => RawS.read n s

/-- `seek(k, os.SEEK_CUR)` (only used with nonnegative offsets). -/
def RawS.seekCur (k : Int) (s : RawS) : RawS :=
  { s with pos := ((s.pos : Int) + k).toNat }

/-- `seek(p, os.SEEK_SET)`. -/
def RawS.seekSet (p : Nat) (s : RawS) : RawS :=
  { s with pos := p }

/-- `tell()`. -/
def RawS.tell (s : RawS) : Nat :=
  s.pos

/-- `is_eof` on the raw stream (probe one byte, restore position). -/
def RawS.isEof (s : RawS) : Bool :=
  s.data.length ≤ s.pos

/-- A Python value as it appears in the compressed-chunk header check:
`stream.read(1)` is a `bytes` object, compared against the `int` literal
`0`.  Python `==` between unrelated types is `False`. -/
inductive PyVal where
  | pyBytes (bs : List Nat)
  | pyInt (n : Int)
deriving DecidableEq, Repr

/-- Python `==` semantics for the values above: equal only within one
type; `bytes == int` is always `False`. -/
def PyVal.pyEq : PyVal → PyVal → Bool
  | .pyBytes a, .pyBytes b => a == b
  | .pyInt a, .pyInt b => a == b
  | _, _ => false

/-- Python `!=`. -/
def PyVal.pyNe (a b : PyVal) : Bool :=
  ! PyVal.pyEq a b

/-- `_CompressedChunkProcessor.read_chunk`, translated exactly: the guard
is the source's `stream.read(1) != 0`, a `bytes`-vs-`int` comparison.
`decompress` abstracts the lz4/lzf backend (an external library). -/
def compressedReadChunk (decompress : List Nat → Nat → List Nat) (stream : RawS)
    (chunk_size : Nat) : List Nat × RawS :=
  let (flag, stream) := RawS.read 1 stream
  if PyVal.pyNe (.pyBytes flag) (.pyInt 0) then
    let (compSize, stream) := read_int rawRead stream
    let (compressedData, stream) := RawS.read compSize stream
    (decompress compressedData chunk_size, stream)
  else
    RawS.read chunk_size stream

/-- `_CompressedChunkProcessor.skip_chunk`, with the same guard. -/
def compressedSkipChunk (stream : RawS) (chunk_size : Nat) : RawS :=
  let (flag, stream) := RawS.read 1 stream
  if PyVal.pyNe (.pyBytes flag) (.pyInt 0) then
    let (compSize, stream) := read_int rawRead stream
    RawS.seekCur compSize stream
  else
    RawS.seekCur (chunk_size : Int) stream

/-- `_UncompressedChunkProcessor.read_chunk`. -/
def uncompressedReadChunk (stream : RawS) (chunk_size : Nat) : List Nat × RawS :=
  RawS.read (chunk_size : Int) stream

/-- `_UncompressedChunkProcessor.skip_chunk`. -/
def uncompressedSkipChunk (stream : RawS) (chunk_size : Nat) : RawS :=
  RawS.seekCur (chunk_size : Int) stream

/-- `_CompressedChunkProcessor.write_chunk`: flag byte 1, 4-byte length of
the compressed payload, then the payload (`compress` abstracts the
backend). -/
def compressedWriteChunk (compress : List Nat → List Nat) (chunk : List Nat) :
    Except PyErr (List Nat) := do
  let compressedData := compress chunk
  let lb ← write_int (compressedData.length : Int)
  pure ([1] ++ lb ++ compressedData)

/-- Modelled from the spec: the intended `read_chunk` semantics for
compressed codecs ("read the 1-byte compression flag; if zero, read
`chunk_size` raw bytes; otherwise read the 4-byte compressed length and
that many bytes and decompress").  This is what §4.2 of the specification
prescribes; the source's guard compares `bytes` against `int` instead. -/
def intendedCompressedReadChunk (decompress : List Nat → Nat → List Nat) (stream : RawS)
    (chunk_size : Nat) : List Nat × RawS :=
  let (flag, stream) := RawS.read 1 stream
  if flag ≠ [0] then
    let (compSize, stream) := read_int rawRead stream
    let (compressedData, stream) := RawS.read compSize stream
    (decompress compressedData chunk_size, stream)
  else
    RawS.read chunk_size stream

/-- Modelled from the spec: the intended `skip_chunk` semantics for
compressed codecs. -/
def intendedCompressedSkipChunk (stream : RawS) (chunk_size : Nat) : RawS :=
  let (flag, stream) := RawS.read 1 stream
  if flag ≠ [0] then
    let (compSize, stream) := read_int rawRead stream
    RawS.seekCur compSize stream
  else
    RawS.seekCur (chunk_size : Int) stream

/-- A concrete stand-in decompressor for evaluating the processors on a
concrete chunk frame. -/
def padDecompress (data : List Nat) (chunk_size : Nat) : List Nat :=
  (data ++ List.replicate chunk_size 0).take chunk_size

/-- C2: the claim says a zero flag byte makes `read_chunk` return the next
`chunk_size` raw bytes and makes `skip_chunk` skip `chunk_size` bytes.
The code's guard `stream.read(1) != 0` compares `bytes` with `int`, which
is always true, so the flag-zero branch is dead: on the frame
`00 00 00 00 02 0A 14 1E` with `chunk_size = 3` the code reads the four
bytes after the zero flag as a compressed length (2) and decompresses the
following two bytes, ending at offset 7, where the intended semantics
return the three raw bytes `00 00 00` and end at offset 4 (skip: offset 7
instead of 4). -/
theorem C2_compressed_flag_zero_ignored :
    (∀ bs : List Nat, PyVal.pyNe (.pyBytes bs) (.pyInt 0) = true) ∧
    compressedReadChunk padDecompress ⟨[0, 0, 0, 0, 2, 10, 20, 30], 0⟩ 3 =
      ([10, 20, 0], ⟨[0, 0, 0, 0, 2, 10, 20, 30], 7⟩) ∧
    intendedCompressedReadChunk padDecompress ⟨[0, 0, 0, 0, 2, 10, 20, 30], 0⟩ 3 =
      ([0, 0, 0], ⟨[0, 0, 0, 0, 2, 10, 20, 30], 4⟩) ∧
    compressedSkipChunk ⟨[0, 0, 0, 0, 2, 10, 20, 30], 0⟩ 3 =
      ⟨[0, 0, 0, 0, 2, 10, 20, 30], 7⟩ ∧
    intendedCompressedSkipChunk ⟨[0, 0, 0, 0, 2, 10, 20, 30], 0⟩ 3 =
      ⟨[0, 0, 0, 0, 2, 10, 20, 30], 4⟩ ∧
    ([10, 20, 0] : List Nat) ≠ [0, 0, 0] := by
  refine ⟨?_, by decide, by decide, by decide, by decide, by decide⟩
  intro bs
  rfl

/-- Witness for C2's universally quantified conjunct at `bs = [0]`. -/
theorem C2_compressed_flag_zero_ignored_witness :
    PyVal.pyNe (.pyBytes [0]) (.pyInt 0) = true :=
  C2_compressed_flag_zero_ignored.1 [0]

/-! ## PackageWriter (sggpio.py)

`_write_buf` is a `BytesIO(bytes(chunksize))` that the writer only ever
writes to sequentially from position 0, so it is modelled as the written
prefix plus the allocated length: `tell()` is the prefix length and
`getvalue()` is the prefix padded with the untouched zero tail. -/

/-- The uncompressed chunk window size. -/
def CHUNK_SIZE : Nat := 0x2000000

/-- The writer's scratch buffer (see section comment). -/
structure WriteBuf where
  written : List Nat
  size : Nat
deriving DecidableEq, Repr

/-- `_write_buf.tell()`. -/
def WriteBuf.tell (b : WriteBuf) : Nat :=
  b.written.length

/-- `len(_write_buf.getvalue())`. -/
def WriteBuf.getvalueLen (b : WriteBuf) : Nat :=
  max b.size b.written.length

/-- `_write_buf.getvalue()`. -/
def WriteBuf.getvalue (b : WriteBuf) : List Nat :=
  b.written ++ List.replicate (b.size - b.written.length) 0

/-- `_write_buf.write(bs)`. -/
def WriteBuf.write (b : WriteBuf) (bs : List Nat) : WriteBuf :=
  { b with written := b.written ++ bs }

/-- The compressor the writer was opened with: the header type code plus
the backend's `compress` for the compressed codecs. -/
inductive WriterCodec where
  | uncompressed
  | compressed (code : Nat) (compress : List Nat → List Nat)

/-- `_typeCode` of the writer's chunk processor. -/
def WriterCodec.typeCode : WriterCodec → Nat
  | .uncompressed => 0x00
  | .compressed code _ => code

/-- `PackageWriter` state.  `flushed` instruments the run with the `chunk`
arguments passed to `write_chunk`, which the source discards; everything
else is source state. -/
structure PackageWriterSt where
  raw : List Nat
  wbuf : WriteBuf
  vchunk : Nat
  voff : Int
  flushed : List (List Nat)
deriving DecidableEq, Repr

/-- `_reset_write_buf`: the chunk size test reads `virtual_pos[0]` before
`_write_chunk` increments it, so the buffer after flushing chunk 0 is
also `CHUNK_SIZE - 4` bytes. -/
def resetWriteBuf (vchunk : Nat) : WriteBuf :=
  ⟨[], if vchunk = 0 then CHUNK_SIZE - 4 else CHUNK_SIZE⟩

/-- The `chunk` value computed inside `_write_chunk`: the whole window for
compressed codecs, the bytes actually written (sentinel included) for the
uncompressed codec. -/
def chunkContent (codec : WriterCodec) (closing : Bool) (s : PackageWriterSt) : List Nat :=
  let endbyte := if closing then 0xFF else 0xBE
  let wb := s.wbuf.write [endbyte]
  match codec with
  | .uncompressed => wb.written
  | .compressed _ _ => wb.getvalue

/-- The bytes `_write_chunk` sends to the raw stream for a given chunk:
the raw chunk for the uncompressed codec, the flag byte, 4-byte length
and compressor output otherwise. -/
def frameOf (codec : WriterCodec) (chunk : List Nat) : Except PyErr (List Nat) :=
  match codec with
  | .uncompressed => Except.ok chunk
  | .compressed _ compress => compressedWriteChunk compress chunk

/-- `PackageWriter._write_chunk`. -/
def writeChunkOp (codec : WriterCodec) (closing : Bool) (s : PackageWriterSt) :
    Except PyErr PackageWriterSt :=
  match frameOf codec (chunkContent codec closing s) with
  | .ok frame =>
    .ok { raw := s.raw ++ frame, wbuf := resetWriteBuf s.vchunk, vchunk := s.vchunk + 1,
          voff := 0, flushed := s.flushed ++ [chunkContent codec closing s] }
  | .error e => .error e

/-- The trailing buffer write of `PackageWriter.write`. -/
def bufAppend (s : PackageWriterSt) (b : List Nat) : PackageWriterSt :=
  { s with wbuf := s.wbuf.write b, voff := s.voff + b.length }

/-- `PackageWriter.write`: reject oversized writes, flush when the chunk
cannot take the bytes plus the reserved sentinel byte, then buffer. -/
def pwrite (codec : WriterCodec) (b : List Nat) (s : PackageWriterSt) :
    Except PyErr PackageWriterSt :=
  if b.length > CHUNK_SIZE then .error .osError
  else if (b.length : Int) > (s.wbuf.getvalueLen : Int) - s.wbuf.tell - 1 then
    match writeChunkOp codec false s with
    | .ok s1 => .ok (bufAppend s1 b)
    | .error e => .error e
  else .ok (bufAppend s b)

/-- `PackageWriter.__init__` (via `_write_header`): the 4 header bytes go
straight to the raw stream and the virtual position becomes 4. -/
def initWriter (codec : WriterCodec) (version : Nat) : PackageWriterSt :=
  { raw := [codec.typeCode, 0, 0, version], wbuf := resetWriteBuf 0, vchunk := 0, voff := 4,
    flushed := [] }

/-- `PackageWriter.close`: flush the final chunk with the end-of-file
sentinel. -/
def pclose (codec : WriterCodec) (s : PackageWriterSt) : Except PyErr PackageWriterSt :=
  writeChunkOp codec true s

/-- Run a sequence of `write` calls and then `close`. -/
def runWritesAux (codec : WriterCodec) : List (List Nat) → PackageWriterSt →
    Except PyErr PackageWriterSt
  | [], s => pclose codec s
  | b :: r, s =>
    match pwrite codec b s with
    | .ok s1 => runWritesAux codec r s1
    | .error e => .error e

/-- Open a writer, perform the writes, close. -/
def runWrites (codec : WriterCodec) (version : Nat) (bs : List (List Nat)) :
    Except PyErr PackageWriterSt :=
  runWritesAux codec bs (initWriter codec version)

/-- The claim's chunk window: `CHUNK_SIZE - 4` for chunk 0 (the header
occupies 4 virtual bytes), `CHUNK_SIZE` afterwards. -/
def window (k : Nat) : Nat :=
  if k = 0 then CHUNK_SIZE - 4 else CHUNK_SIZE

/-- For compressed codecs the flush can only fail if the backend output
needs more than an `i32` length; rule that out. -/
def codecCompressOk : WriterCodec → Prop
  | .uncompressed => True
  | .compressed _ compress => ∀ chunk, ((compress chunk).length : Int) < 2 ^ 31

/-- The run invariant of the writer: the buffer's allocated size follows
from the chunk index (chunk 1's buffer is also `CHUNK_SIZE - 4` because
`_reset_write_buf` runs before the index increments), the buffer content
plus sentinel fits the window, and all previously flushed chunks fit
their windows. -/
def WInv (s : PackageWriterSt) : Prop :=
  s.wbuf.size = (if s.vchunk ≤ 1 then CHUNK_SIZE - 4 else CHUNK_SIZE) ∧
  (s.vchunk = 0 → s.wbuf.tell + 1 ≤ CHUNK_SIZE - 4) ∧
  s.wbuf.tell + 1 ≤ CHUNK_SIZE ∧
  s.flushed.length = s.vchunk ∧
  (∀ k (h : k < s.flushed.length), (s.flushed.get ⟨k, h⟩).length ≤ window k)

theorem chunkContent_length {codec : WriterCodec} {closing : Bool} {s : PackageWriterSt} :
    (chunkContent codec closing s).length = s.wbuf.tell + 1 ∨
    (chunkContent codec closing s).length = max s.wbuf.size (s.wbuf.tell + 1) := by
  cases codec with
  | uncompressed =>
    left
    simp [chunkContent, WriteBuf.write, WriteBuf.tell]
  | compressed code compress =>
    right
    simp [chunkContent, WriteBuf.write, WriteBuf.tell, WriteBuf.getvalue]
    omega

theorem writeChunkOp_eq_ok {closing : Bool} {s : PackageWriterSt} {codec : WriterCodec}
    {F : List Nat}
    (hfr : frameOf codec (chunkContent codec closing s) = .ok F) :
    writeChunkOp codec closing s =
      .ok { raw := s.raw ++ F, wbuf := resetWriteBuf s.vchunk, vchunk := s.vchunk + 1,
            voff := 0, flushed := s.flushed ++ [chunkContent codec closing s] } := by
  unfold writeChunkOp
  rw [hfr]

theorem writeChunk_ok {codec : WriterCodec} {closing : Bool} {s : PackageWriterSt}
    (hcomp : codecCompressOk codec) :
    ∃ frame, writeChunkOp codec closing s =
      .ok { raw := s.raw ++ frame, wbuf := resetWriteBuf s.vchunk, vchunk := s.vchunk + 1,
            voff := 0, flushed := s.flushed ++ [chunkContent codec closing s] } := by
  cases codec with
  | uncompressed =>
    have hfr : frameOf .uncompressed (chunkContent .uncompressed closing s) =
        .ok (chunkContent .uncompressed closing s) := rfl
    exact ⟨_, writeChunkOp_eq_ok hfr⟩
  | compressed code compress =>
    replace hcomp : ∀ chunk, ((compress chunk).length : Int) < 2 ^ 31 := hcomp
    have hcw : compressedWriteChunk compress (chunkContent (.compressed code compress) closing s) =
        .ok ([1] ++ be4 ((((compress (chunkContent (.compressed code compress) closing s)).length :
          Int) % ((2 ^ 32 : Nat) : Int)).toNat) ++
          compress (chunkContent (.compressed code compress) closing s)) := by
      unfold compressedWriteChunk write_int int4enc
      dsimp only
      rw [if_pos ⟨le_trans (by norm_num) (Int.natCast_nonneg _), hcomp _⟩]
      rfl
    have hfr : frameOf (.compressed code compress)
        (chunkContent (.compressed code compress) closing s) =
        .ok ([1] ++ be4 ((((compress (chunkContent (.compressed code compress) closing s)).length :
          Int) % ((2 ^ 32 : Nat) : Int)).toNat) ++
          compress (chunkContent (.compressed code compress) closing s)) := hcw
    exact ⟨_, writeChunkOp_eq_ok hfr⟩

theorem writeChunk_inv {codec : WriterCodec} {closing : Bool} {s : PackageWriterSt}
    (hcomp : codecCompressOk codec) (hInv : WInv s) :
    ∃ s', writeChunkOp codec closing s = .ok s' ∧ WInv s' ∧
      s'.flushed = s.flushed ++ [chunkContent codec closing s] ∧
      s'.wbuf = resetWriteBuf s.vchunk ∧ s'.vchunk = s.vchunk + 1 := by
  obtain ⟨hsize, h0, hcs, hlen, hall⟩ := hInv
  obtain ⟨frame, hfr⟩ := @writeChunk_ok codec closing s hcomp
  refine ⟨_, hfr, ?_, rfl, rfl, rfl⟩
  have hCS : (4 : Nat) ≤ CHUNK_SIZE := by norm_num [CHUNK_SIZE]
  have hchunk : (chunkContent codec closing s).length ≤ window s.vchunk := by
    rcases @chunkContent_length codec closing s with hc | hc <;>
      rw [hc] <;> unfold window <;> split <;> rename_i hv
    · omega
    · omega
    · rw [hsize]
      have : s.vchunk ≤ 1 := by omega
      simp [this]
      omega
    · by_cases hv1 : s.vchunk ≤ 1
      · rw [hsize]
        simp [hv1]
        omega
      · rw [hsize]
        have : ¬ s.vchunk ≤ 1 := hv1
        simp [this]
        omega
  refine ⟨?_, ?_, ?_, ?_, ?_⟩
  · show (resetWriteBuf s.vchunk).size = _
    unfold resetWriteBuf
    by_cases hv : s.vchunk = 0
    · simp [hv]
    · have h2 : ¬ (s.vchunk + 1 ≤ 1) := by omega
      simp [hv, h2]
  · intro hz
    simp at hz
  · show ([] : List Nat).length + 1 ≤ CHUNK_SIZE
    simp
    norm_num [CHUNK_SIZE]
  · simp [hlen]
  · intro k hk
    simp only [List.length_append, List.length_cons, List.length_nil] at hk
    by_cases hkl : k < s.flushed.length
    · rw [List.get_append_left _ _ hkl]
      exact hall k hkl
    · have hke : k = s.flushed.length := by omega
      subst hke
      simp only [List.get_eq_getElem]
      rw [List.getElem_append_right (Nat.le_refl _)]
      simp only [Nat.sub_self, List.getElem_cons_zero]
      rw [hlen]
      exact hchunk

theorem pwrite_inv {codec : WriterCodec} {b : List Nat} {s : PackageWriterSt}
    (hcomp : codecCompressOk codec) (hInv : WInv s) (hb : b.length < CHUNK_SIZE) :
    ∃ s', pwrite codec b s = .ok s' ∧ WInv s' := by
  have hCSv : CHUNK_SIZE = 33554432 := rfl
  unfold pwrite
  rw [if_neg (by omega : ¬ b.length > CHUNK_SIZE)]
  by_cases hfit : (b.length : Int) > (s.wbuf.getvalueLen : Int) - s.wbuf.tell - 1
  · rw [if_pos hfit]
    obtain ⟨s1, hw, hInv1, hfl, hwb, hvc⟩ := @writeChunk_inv codec false s hcomp hInv
    rw [hw]
    refine ⟨bufAppend s1 b, rfl, ?_⟩
    obtain ⟨hsize1, h01, hcs1, hlen1, hall1⟩ := hInv1
    refine ⟨?_, ?_, ?_, ?_, ?_⟩
    · simpa [bufAppend, WriteBuf.write] using hsize1
    · intro hz
      rw [show (bufAppend s1 b).vchunk = s1.vchunk from rfl, hvc] at hz
      omega
    · show (s1.wbuf.write b).written.length + 1 ≤ CHUNK_SIZE
      rw [hwb]
      simp [resetWriteBuf, WriteBuf.write]
      omega
    · simpa [bufAppend] using hlen1
    · exact hall1
  · rw [if_neg hfit]
    refine ⟨bufAppend s b, rfl, ?_⟩
    obtain ⟨hsize, h0, hcs, hlen, hall⟩ := hInv
    have hfit' : b.length + s.wbuf.tell + 1 ≤ s.wbuf.size := by
      simp only [WriteBuf.getvalueLen, WriteBuf.tell] at hfit ⊢
      rcases Nat.le_total s.wbuf.size s.wbuf.written.length with hmt | hmt
      · rw [Nat.max_eq_right hmt] at hfit
        omega
      · rw [Nat.max_eq_left hmt] at hfit
        omega
    refine ⟨?_, ?_, ?_, ?_, ?_⟩
    · simpa [bufAppend, WriteBuf.write] using hsize
    · intro hz
      rw [show (bufAppend s b).vchunk = s.vchunk from rfl] at hz
      have hsz : s.wbuf.size = CHUNK_SIZE - 4 := by
        rw [hsize, if_pos (by omega)]
      show (s.wbuf.write b).written.length + 1 ≤ CHUNK_SIZE - 4
      simp only [WriteBuf.write, List.length_append]
      simp only [WriteBuf.tell] at hfit'
      omega
    · have hszle : s.wbuf.size ≤ CHUNK_SIZE := by
        rw [hsize]
        split <;> omega
      show (s.wbuf.write b).written.length + 1 ≤ CHUNK_SIZE
      simp only [WriteBuf.write, List.length_append]
      simp only [WriteBuf.tell] at hfit'
      omega
    · simpa [bufAppend] using hlen
    · exact hall

theorem initWriter_WInv {codec : WriterCodec} {version : Nat} :
    WInv (initWriter codec version) := by
  refine ⟨rfl, fun _ => ?_, ?_, rfl, ?_⟩
  · show ([] : List Nat).length + 1 ≤ CHUNK_SIZE - 4
    simp
    norm_num [CHUNK_SIZE]
  · show ([] : List Nat).length + 1 ≤ CHUNK_SIZE
    simp
    norm_num [CHUNK_SIZE]
  · intro k hk
    simp [initWriter] at hk

theorem runWritesAux_inv {codec : WriterCodec} (hcomp : codecCompressOk codec) :
    ∀ (bs : List (List Nat)) (s : PackageWriterSt), WInv s →
      (∀ b ∈ bs, b.length < CHUNK_SIZE) →
      ∃ s', runWritesAux codec bs s = .ok s' ∧ WInv s' := by
  intro bs
  induction bs with
  | nil =>
    intro s hInv _
    obtain ⟨s', hw, hInv', _⟩ := @writeChunk_inv codec true s hcomp hInv
    exact ⟨s', hw, hInv'⟩
  | cons b r ih =>
    intro s hInv hbs
    obtain ⟨s1, hw, hInv1⟩ := pwrite_inv hcomp hInv (hbs b (by simp))
    obtain ⟨s', hws, hInv'⟩ := ih s1 hInv1 (fun x hx => hbs x (by simp [hx]))
    refine ⟨s', ?_, hInv'⟩
    simp only [runWritesAux, hw]
    exact hws

/-- C5: the writer keeps every flushed chunk inside its window, rejects
oversized writes, and flushes a sentinel-terminated chunk before a write
that does not fit.  Amended: the window bound holds for writes of length
STRICTLY below `CHUNK_SIZE`; the source accepts a write of exactly
`CHUNK_SIZE` bytes (only `> CHUNK_SIZE` raises) and such a write
overflows the chunk window (see the counterexample). -/
theorem C5_writer_chunk_window_amended :
    (∀ (codec : WriterCodec) (version : Nat) (bs : List (List Nat)),
        codecCompressOk codec → (∀ b ∈ bs, b.length < CHUNK_SIZE) →
        ∃ s, runWrites codec version bs = .ok s ∧
          ∀ k (h : k < s.flushed.length), (s.flushed.get ⟨k, h⟩).length ≤ window k) ∧
    (∀ (codec : WriterCodec) (b : List Nat) (s : PackageWriterSt),
        b.length > CHUNK_SIZE → pwrite codec b s = .error .osError) ∧
    (∀ (codec : WriterCodec) (b : List Nat) (s : PackageWriterSt),
        codecCompressOk codec → ¬ b.length > CHUNK_SIZE →
        (b.length : Int) > (s.wbuf.getvalueLen : Int) - s.wbuf.tell - 1 →
        ∃ s', pwrite codec b s = .ok s' ∧
          s'.flushed = s.flushed ++ [chunkContent codec false s] ∧
          s'.vchunk = s.vchunk + 1 ∧ s'.wbuf.written = b) ∧
    (∀ s : PackageWriterSt, chunkContent .uncompressed false s = s.wbuf.written ++ [0xBE]) := by
  refine ⟨?_, ?_, ?_, fun s => rfl⟩
  · intro codec version bs hcomp hbs
    obtain ⟨s', hw, hInv'⟩ := runWritesAux_inv hcomp bs _ initWriter_WInv hbs
    exact ⟨s', hw, hInv'.2.2.2.2⟩
  · intro codec b s hb
    unfold pwrite
    rw [if_pos hb]
  · intro codec b s hcomp hble hfit
    unfold pwrite
    rw [if_neg hble, if_pos hfit]
    obtain ⟨frame, hfr⟩ := @writeChunk_ok codec false s hcomp
    rw [hfr]
    refine ⟨_, rfl, rfl, rfl, ?_⟩
    show (resetWriteBuf s.vchunk).written ++ b = b
    simp [resetWriteBuf]

/-- Witness for C5: a one-byte write keeps all chunks in their windows, a
write of `CHUNK_SIZE + 1` bytes raises `OSError`, a non-fitting write
flushes the sentinel-terminated chunk and reseats the bytes, and the
uncompressed flush content is the buffer plus the 0xBE sentinel. -/
theorem C5_writer_chunk_window_amended_witness :
    (∃ s, runWrites .uncompressed 7 [[42]] = .ok s ∧
        ∀ k (h : k < s.flushed.length), (s.flushed.get ⟨k, h⟩).length ≤ window k) ∧
    pwrite .uncompressed (List.replicate (CHUNK_SIZE + 1) 0) (initWriter .uncompressed 7) =
      .error .osError ∧
    (∃ s', pwrite .uncompressed [1, 2] ⟨[0, 0, 0, 7], ⟨[5], 2⟩, 0, 4, []⟩ = .ok s' ∧
        s'.flushed = [] ++ [chunkContent .uncompressed false ⟨[0, 0, 0, 7], ⟨[5], 2⟩, 0, 4, []⟩] ∧
        s'.vchunk = 0 + 1 ∧ s'.wbuf.written = [1, 2]) ∧
    chunkContent .uncompressed false ⟨[0, 0, 0, 7], ⟨[5], 2⟩, 0, 4, []⟩ = [5] ++ [0xBE] := by
  refine ⟨C5_writer_chunk_window_amended.1 .uncompressed 7 [[42]] trivial ?_,
    C5_writer_chunk_window_amended.2.1 .uncompressed _ _ ?_,
    C5_writer_chunk_window_amended.2.2.1 .uncompressed [1, 2]
      ⟨[0, 0, 0, 7], ⟨[5], 2⟩, 0, 4, []⟩ trivial (by norm_num [CHUNK_SIZE]) (by decide),
    C5_writer_chunk_window_amended.2.2.2 ⟨[0, 0, 0, 7], ⟨[5], 2⟩, 0, 4, []⟩⟩
  · intro b hb
    simp at hb
    subst hb
    norm_num [CHUNK_SIZE]
  · simp only [List.length_replicate]
    omega

/-- The writer state after a `write` of `b` that did not fit in a fresh
uncompressed writer: chunk 0 was flushed with just its sentinel and the
bytes sit in the chunk-1 buffer. -/
def c5mid (b : List Nat) : PackageWriterSt :=
  bufAppend
    { raw := (initWriter .uncompressed 7).raw ++
        chunkContent .uncompressed false (initWriter .uncompressed 7),
      wbuf := resetWriteBuf 0, vchunk := 0 + 1, voff := 0,
      flushed := (initWriter .uncompressed 7).flushed ++
        [chunkContent .uncompressed false (initWriter .uncompressed 7)] }
    b

theorem c5run {b : List Nat} (hlen : b.length = CHUNK_SIZE) :
    (runWrites .uncompressed 7 [b]).toOption.map (fun s => s.flushed.map List.length) =
      some [1, CHUNK_SIZE + 1] := by
  have hA : ¬ b.length > CHUNK_SIZE := by simp [hlen]
  have hB : (b.length : Int) >
      ((initWriter .uncompressed 7).wbuf.getvalueLen : Int) -
        (initWriter .uncompressed 7).wbuf.tell - 1 := by
    rw [hlen]
    norm_num [initWriter, resetWriteBuf, WriteBuf.getvalueLen, WriteBuf.tell, CHUNK_SIZE]
  have hpw : pwrite .uncompressed b (initWriter .uncompressed 7) = .ok (c5mid b) := by
    unfold pwrite
    rw [if_neg hA, if_pos hB]
    rw [writeChunkOp_eq_ok (show frameOf .uncompressed
      (chunkContent .uncompressed false (initWriter .uncompressed 7)) =
      .ok (chunkContent .uncompressed false (initWriter .uncompressed 7)) from rfl)]
    rfl
  have hcl : pclose .uncompressed (c5mid b) =
      .ok { raw := (c5mid b).raw ++ chunkContent .uncompressed true (c5mid b),
            wbuf := resetWriteBuf (c5mid b).vchunk, vchunk := (c5mid b).vchunk + 1, voff := 0,
            flushed := (c5mid b).flushed ++ [chunkContent .uncompressed true (c5mid b)] } := by
    unfold pclose
    rw [writeChunkOp_eq_ok (show frameOf .uncompressed
      (chunkContent .uncompressed true (c5mid b)) =
      .ok (chunkContent .uncompressed true (c5mid b)) from rfl)]
  show (runWritesAux .uncompressed [b]
    (initWriter .uncompressed 7)).toOption.map (fun s => s.flushed.map List.length) =
    some [1, CHUNK_SIZE + 1]
  simp only [runWritesAux, hpw]
  rw [hcl]
  simp only [Except.toOption, Option.map]
  simp [c5mid, bufAppend, chunkContent, WriteBuf.write, initWriter, resetWriteBuf,
    WriterCodec.typeCode, hlen]

/-- C5 counterexample: a single write of exactly `CHUNK_SIZE` bytes is
accepted (its length is not `> CHUNK_SIZE`) and produces a chunk of
`CHUNK_SIZE + 1` bytes, above the `window 1 = CHUNK_SIZE` bound the claim
asserts for writes of length at most `CHUNK_SIZE`. -/
theorem C5_chunk_size_write_overflows :
    (runWrites .uncompressed 7 [List.replicate CHUNK_SIZE 0]).toOption.map
        (fun s => s.flushed.map List.length) = some [1, CHUNK_SIZE + 1] ∧
    CHUNK_SIZE + 1 > window 1 ∧
    ¬ (List.replicate CHUNK_SIZE (0 : Nat)).length > CHUNK_SIZE := by
  refine ⟨c5run (by simp), by simp [window], by simp⟩

/-- C7: writing a package with the uncompressed codec, version 7 and no
entries, then closing, produces exactly the bytes
`00 00 00 07 FF` — the 4-byte header followed by the end-of-file
sentinel, the uncompressed chunk truncated to the bytes actually
written. -/
theorem C7_empty_package_bytes :
    (runWrites .uncompressed 7 []).toOption.map PackageWriterSt.raw =
      some [0x00, 0x00, 0x00, 0x07, 0xFF] := rfl

theorem read_string_truncated {n : Nat} {rest : List Nat} (hlt : rest.length < n)
    (hA : rest.all (· < 128) = true) :
    read_string listRead (n :: rest) = .ok (rest, []) := by
  unfold read_string
  rw [show listRead 1 (n :: rest) = ([n], rest) from by simp [listRead]]
  dsimp only
  rw [natFromBE_singleton]
  rw [show listRead (n : Int) rest = (rest, []) from by
    simp only [listRead]
    rw [if_neg (by omega : ¬ (n : Int) < 0), Int.toNat_natCast,
      List.take_of_length_le (le_of_lt hlt), List.drop_eq_nil_of_le (le_of_lt hlt)]]
  dsimp only
  rw [show asciiDecode rest = .ok rest from by simp [asciiDecode, hA]]
  rfl

theorem read_big_string_truncated {n : Nat} {rest : List Nat} (hn : n < 2 ^ 31)
    (hlt : rest.length < n) (hA : rest.all (· < 128) = true) :
    read_big_string listRead (be4 n ++ rest) = .ok (rest, []) := by
  unfold read_big_string
  rw [listRead_of_len (be4 n) rest (by rw [be4_length]; norm_num)]
  dsimp only
  have hmod : (((n : Int)) % ((2 ^ 32 : Nat) : Int)).toNat = n := by
    have : ((2 ^ 32 : Nat) : Int) = 4294967296 := by norm_num
    rw [this]
    omega
  rw [show be4 n = be4 ((((n : Int)) % ((2 ^ 32 : Nat) : Int)).toNat) from by rw [hmod]]
  rw [intFromBEsigned_be4 (by omega) (by exact_mod_cast hn)]
  rw [show listRead (n : Int) rest = (rest, []) from by
    simp only [listRead]
    rw [if_neg (by omega : ¬ (n : Int) < 0), Int.toNat_natCast,
      List.take_of_length_le (le_of_lt hlt), List.drop_eq_nil_of_le (le_of_lt hlt)]]
  dsimp only
  rw [utf8Decode_ascii hA]
  rfl

/-- C6: the claim says a `read_string` / `read_big_string` whose stream
holds fewer bytes than the length prefix fails with a MalformedInput
error.  Amended: no such error exists in the source; a truncated read
returns the decoded available bytes as a shortened string (shown here
for ASCII payloads, where the decode cannot itself fail). -/
theorem C6_truncated_string_read_amended :
    (∀ (n : Nat) (rest : List Nat), rest.length < n → rest.all (· < 128) = true →
        read_string listRead (n :: rest) = .ok (rest, [])) ∧
    (∀ (n : Nat) (rest : List Nat), n < 2 ^ 31 → rest.length < n →
        rest.all (· < 128) = true →
        read_big_string listRead (be4 n ++ rest) = .ok (rest, [])) :=
  ⟨fun _ _ hlt hA => read_string_truncated hlt hA,
   fun _ _ hn hlt hA => read_big_string_truncated hn hlt hA⟩

/-- Witness for C6: prefix 2 with a single available byte 97. -/
theorem C6_truncated_string_read_amended_witness :
    read_string listRead (2 :: [97]) = .ok ([97], []) ∧
    read_big_string listRead (be4 2 ++ [97]) = .ok ([97], []) :=
  ⟨C6_truncated_string_read_amended.1 2 [97] (by decide) (by decide),
   C6_truncated_string_read_amended.2 2 [97] (by decide) (by decide) (by decide)⟩

/-- C6 counterexample: both truncated reads SUCCEED with the shortened
string instead of failing with any error, refuting the claimed
MalformedInput failure. -/
theorem C6_truncated_read_no_error :
    read_string listRead [2, 97] = .ok ([97], []) ∧
    read_big_string listRead [0, 0, 0, 2, 97] = .ok ([97], []) := by
  constructor <;> decide

/-! ## `deppth.patch` (deppth.py)

The patch dictionary is a Python dict keyed by entry name: assignment
updates in place (keeping the key's insertion position) or appends,
`pop` removes, and `values()` iterates in insertion order. -/

/-- `patch_entries[k] = v`. -/
def dictInsert (d : List (List Nat × Entry)) (k : List Nat) (v : Entry) :
    List (List Nat × Entry) :=
  match d with
  | [] => [(k, v)]
  | (k', v') :: rest => if k' = k then (k, v) :: rest else (k', v') :: dictInsert rest k v

/-- `patch_entries.get(k)`. -/
def dictGet? (d : List (List Nat × Entry)) (k : List Nat) : Option Entry :=
  match d with
  | [] => none
  | (k', v') :: rest => if k' = k then some v' else dictGet? rest k

/-- `patch_entries.pop(k)` paired with the remaining dict (`.1 = none`
models `k not in patch_entries`, in which case the dict is unchanged). -/
def dictPop (d : List (List Nat × Entry)) (k : List Nat) :
    Option Entry × List (List Nat × Entry) :=
  match d with
  | [] => (none, [])
  | (k', v') :: rest =>
    if k' = k then (some v', rest)
    else ((dictPop rest k).1, (k', v') :: (dictPop rest k).2)

/-- The `patch_entries` dict built from all patch packages in order. -/
def buildPatchEntries (patches : List (List Entry)) : List (List Nat × Entry) :=
  patches.foldl (fun d p => p.foldl (fun d e => dictInsert d e.name e) d) []

/-- The source scan of `patch`: each source entry whose name is in the
dict is replaced by the popped patch entry, others pass through. -/
def patchStream (src : List Entry) (d : List (List Nat × Entry)) :
    List Entry × List (List Nat × Entry) :=
  match src with
  | [] => ([], d)
  | e :: rest =>
    match (dictPop d e.name).1 with
    | some pe =>
      (pe :: (patchStream rest (dictPop d e.name).2).1,
       (patchStream rest (dictPop d e.name).2).2)
    | none => (e :: (patchStream rest d).1, (patchStream rest d).2)

/-- `deppth.patch` at the entry-sequence level: scan the source replacing
patched entries, then append the remaining patch entries. -/
def patch (src : List Entry) (patches : List (List Entry)) : List Entry :=
  (patchStream src (buildPatchEntries patches)).1 ++
    (patchStream src (buildPatchEntries patches)).2.map Prod.snd

/-- Modelled from the spec: the claim's description of the result — the
source entries in original order, each entry whose name occurs in the
patch map replaced by the patch version, followed by all unmatched patch
entries in insertion order. -/
def patchSpec (src : List Entry) (patches : List (List Entry)) : List Entry :=
  (src.map (fun e => (dictGet? (buildPatchEntries patches) e.name).getD e)) ++
    ((buildPatchEntries patches).filter
      (fun p => ! src.any (fun e => decide (e.name = p.1)))).map Prod.snd

theorem dictPop_none_not_mem {d : List (List Nat × Entry)} {k : List Nat}
    (h : (dictPop d k).1 = none) : ∀ p ∈ d, p.1 ≠ k := by
  induction d with
  | nil => simp
  | cons hd tl ih =>
    obtain ⟨k', v'⟩ := hd
    by_cases hk : k' = k
    · simp [dictPop, hk] at h
    · simp only [dictPop, hk, if_false, reduceIte] at h
      intro p hp
      rcases List.mem_cons.mp hp with hp | hp
      · subst hp
        exact hk
      · exact ih h p hp

theorem dictGet?_none {d : List (List Nat × Entry)} {k : List Nat}
    (h : ∀ p ∈ d, p.1 ≠ k) : dictGet? d k = none := by
  induction d with
  | nil => rfl
  | cons hd tl ih =>
    obtain ⟨k', v'⟩ := hd
    have hk : k' ≠ k := h (k', v') (by simp)
    simp only [dictGet?, hk, if_false, reduceIte]
    exact ih (fun p hp => h p (List.mem_cons_of_mem _ hp))

theorem dictPop_some_get {d : List (List Nat × Entry)} {k : List Nat} {v : Entry}
    (h : (dictPop d k).1 = some v) : dictGet? d k = some v := by
  induction d with
  | nil => simp [dictPop] at h
  | cons hd tl ih =>
    obtain ⟨k', v'⟩ := hd
    by_cases hk : k' = k
    · simp only [dictPop, hk, if_true, reduceIte] at h
      simp only [dictGet?, hk, if_true, reduceIte]
      simpa using h
    · simp only [dictPop, hk, if_false, reduceIte] at h
      simp only [dictGet?, hk, if_false, reduceIte]
      exact ih h

theorem dictPop_get_ne {d : List (List Nat × Entry)} {k k' : List Nat} (hne : k ≠ k') :
    dictGet? (dictPop d k).2 k' = dictGet? d k' := by
  induction d with
  | nil => rfl
  | cons hd tl ih =>
    obtain ⟨k0, v0⟩ := hd
    by_cases hk : k0 = k
    · have hk' : k0 ≠ k' := by rw [hk]; exact hne
      simp [dictPop, dictGet?, hk, hk', hne]
    · by_cases hk2 : k0 = k'
      · simp [dictPop, dictGet?, hk, hk2, Ne.symm hne]
      · simp only [dictPop, hk, if_false, reduceIte]
        simp only [dictGet?, hk2, if_false, reduceIte]
        exact ih

theorem dictPop_snd_keys_sublist {d : List (List Nat × Entry)} {k : List Nat} :
    List.Sublist ((dictPop d k).2.map Prod.fst) (d.map Prod.fst) := by
  induction d with
  | nil => simp [dictPop]
  | cons hd tl ih =>
    obtain ⟨k0, v0⟩ := hd
    by_cases hk : k0 = k
    · simp only [dictPop, hk, if_true, reduceIte, List.map_cons]
      exact List.sublist_cons_self _ _
    · simp only [dictPop, hk, if_false, reduceIte, List.map_cons]
      exact List.Sublist.cons₂ _ ih

theorem filter_pop_some {d : List (List Nat × Entry)} {k : List Nat} {v : Entry}
    (hd : (d.map Prod.fst).Nodup) (h : (dictPop d k).1 = some v)
    (r : List Nat × Entry → Bool) :
    d.filter (fun p => !(decide (k = p.1) || r p)) =
      (dictPop d k).2.filter (fun p => ! r p) := by
  induction d with
  | nil => simp [dictPop] at h
  | cons hd0 tl ih =>
    obtain ⟨k0, v0⟩ := hd0
    rw [List.map_cons] at hd
    obtain ⟨hk0, htl⟩ := List.nodup_cons.mp hd
    by_cases hk : k0 = k
    · subst hk
      simp only [dictPop, if_true, reduceIte] at h ⊢
      simp only [List.filter_cons, decide_eq_true_eq]
      rw [if_neg (by simp)]
      refine List.filter_congr ?_
      intro p hp
      have hne : p.1 ≠ k0 := by
        intro he
        have hmem : p.1 ∈ tl.map Prod.fst := List.mem_map_of_mem Prod.fst hp
        rw [he] at hmem
        exact hk0 hmem
      simp [Ne.symm hne]
    · simp only [dictPop, hk, if_false, reduceIte] at h ⊢
      simp only [List.filter_cons]
      have hkk0 : ¬ (k = k0) := fun he => hk he.symm
      have hdk : decide (k = k0) = false := by simp [hkk0]
      simp only [hdk, Bool.false_or]
      rw [ih htl h]

theorem filter_no_key {d : List (List Nat × Entry)} {k : List Nat}
    (h : ∀ p ∈ d, p.1 ≠ k) (r : List Nat × Entry → Bool) :
    d.filter (fun p => !(decide (k = p.1) || r p)) = d.filter (fun p => ! r p) := by
  refine List.filter_congr ?_
  intro p hp
  have hdk : decide (k = p.1) = false := by simp [Ne.symm (h p hp)]
  rw [hdk, Bool.false_or]

theorem dictInsert_keys_mem {d : List (List Nat × Entry)} {k x : List Nat} {v : Entry}
    (h : x ∈ (dictInsert d k v).map Prod.fst) : x = k ∨ x ∈ d.map Prod.fst := by
  induction d with
  | nil => simpa [dictInsert] using h
  | cons hd0 tl ih =>
    obtain ⟨k0, v0⟩ := hd0
    by_cases hk : k0 = k
    · simp only [dictInsert, hk, if_true, reduceIte, List.map_cons] at h
      rcases List.mem_cons.mp h with h | h
      · exact Or.inl h
      · exact Or.inr (List.mem_cons_of_mem _ h)
    · simp only [dictInsert, hk, if_false, reduceIte, List.map_cons] at h
      rcases List.mem_cons.mp h with h | h
      · exact Or.inr (by simp [h])
      · rcases ih h with h | h
        · exact Or.inl h
        · exact Or.inr (List.mem_cons_of_mem _ h)

theorem dictInsert_keys_nodup {d : List (List Nat × Entry)} {k : List Nat} {v : Entry}
    (hd : (d.map Prod.fst).Nodup) : ((dictInsert d k v).map Prod.fst).Nodup := by
  induction d with
  | nil => simp [dictInsert]
  | cons hd0 tl ih =>
    obtain ⟨k0, v0⟩ := hd0
    rw [List.map_cons] at hd
    obtain ⟨hk0, htl⟩ := List.nodup_cons.mp hd
    by_cases hk : k0 = k
    · subst hk
      simp only [dictInsert, if_true, reduceIte, List.map_cons]
      exact List.nodup_cons.mpr ⟨hk0, htl⟩
    · simp only [dictInsert, hk, if_false, reduceIte, List.map_cons]
      refine List.nodup_cons.mpr ⟨?_, ih htl⟩
      intro hmem
      rcases dictInsert_keys_mem hmem with h | h
      · exact hk h
      · exact hk0 h

theorem foldl_insert_nodup (l : List Entry) :
    ∀ d : List (List Nat × Entry), (d.map Prod.fst).Nodup →
      ((l.foldl (fun d e => dictInsert d e.name e) d).map Prod.fst).Nodup := by
  induction l with
  | nil => intro d hd; simpa using hd
  | cons e tl ih =>
    intro d hd
    exact ih _ (dictInsert_keys_nodup hd)

theorem buildPatchEntries_keys_nodup (patches : List (List Entry)) :
    ((buildPatchEntries patches).map Prod.fst).Nodup := by
  unfold buildPatchEntries
  have haux : ∀ (ps : List (List Entry)) (d : List (List Nat × Entry)),
      (d.map Prod.fst).Nodup →
      ((ps.foldl (fun d p => p.foldl (fun d e => dictInsert d e.name e) d) d).map
        Prod.fst).Nodup := by
    intro ps
    induction ps with
    | nil => intro d hd; simpa using hd
    | cons p tl ih => intro d hd; exact ih _ (foldl_insert_nodup p d hd)
  exact haux patches [] (by simp)

theorem patchStream_eq_spec : ∀ (src : List Entry) (d : List (List Nat × Entry)),
    (d.map Prod.fst).Nodup → (src.map Entry.name).Nodup →
    patchStream src d =
      (src.map (fun e => (dictGet? d e.name).getD e),
       d.filter (fun p => ! src.any (fun e => decide (e.name = p.1)))) := by
  intro src
  induction src with
  | nil =>
    intro d hd _
    simp [patchStream]
  | cons e rest ih =>
    intro d hd hs
    rw [List.map_cons] at hs
    obtain ⟨hse, hsr⟩ := List.nodup_cons.mp hs
    cases hpop : (dictPop d e.name).1 with
    | some pe =>
      have hd' : ((dictPop d e.name).2.map Prod.fst).Nodup :=
        List.Nodup.sublist dictPop_snd_keys_sublist hd
      simp only [patchStream, hpop]
      rw [ih _ hd' hsr]
      refine congrArg₂ Prod.mk ?_ ?_
      · rw [List.map_cons]
        refine congrArg₂ List.cons ?_ ?_
        · rw [dictPop_some_get hpop]
          rfl
        · refine List.map_congr_left ?_
          intro e' he'
          have hne : e.name ≠ e'.name := by
            intro he
            exact hse (he ▸ List.mem_map_of_mem Entry.name he')
          rw [dictPop_get_ne hne]
      · rw [← filter_pop_some hd hpop (fun p => rest.any (fun e => decide (e.name = p.1)))]
        refine List.filter_congr ?_
        intro p hp
        simp [List.any_cons]
    | none =>
      have hnm := dictPop_none_not_mem hpop
      simp only [patchStream, hpop]
      rw [ih _ hd hsr]
      refine congrArg₂ Prod.mk ?_ ?_
      · rw [List.map_cons]
        refine congrArg₂ List.cons ?_ rfl
        rw [dictGet?_none hnm]
        rfl
      · rw [← filter_no_key hnm (fun p => rest.any (fun e => decide (e.name = p.1)))]
        refine List.filter_congr ?_
        intro p hp
        simp [List.any_cons]

/-- C4: patching replaces matched source entries in place and appends
unmatched patch entries in insertion order.  Amended: this equals the
claim's description only when the source entry names are distinct; the
source pops a patch entry at its first use, so a duplicated source name
is replaced only at its first occurrence (see the counterexample). -/
theorem C4_patch_replace_append_amended :
    (∀ (src : List Entry) (patches : List (List Entry)),
        (src.map Entry.name).Nodup → patch src patches = patchSpec src patches) ∧
    patch [Entry.includePkg [97], Entry.includePkg [98], Entry.includePkg [99]]
        [[Entry.spine 1 [98] [1] [2], Entry.includePkg [100]]] =
      [Entry.includePkg [97], Entry.spine 1 [98] [1] [2], Entry.includePkg [99],
       Entry.includePkg [100]] := by
  constructor
  · intro src patches hnd
    unfold patch patchSpec
    rw [patchStream_eq_spec src _ (buildPatchEntries_keys_nodup patches) hnd]
  · rfl

/-- Witness for C4 at the claim's concrete scenario: sources a, b, c and
patches b (as a spine entry of the same name) and d. -/
theorem C4_patch_replace_append_amended_witness :
    patch [Entry.includePkg [97], Entry.includePkg [98], Entry.includePkg [99]]
        [[Entry.spine 1 [98] [1] [2], Entry.includePkg [100]]] =
      patchSpec [Entry.includePkg [97], Entry.includePkg [98], Entry.includePkg [99]]
        [[Entry.spine 1 [98] [1] [2], Entry.includePkg [100]]] :=
  C4_patch_replace_append_amended.1
    [Entry.includePkg [97], Entry.includePkg [98], Entry.includePkg [99]]
    [[Entry.spine 1 [98] [1] [2], Entry.includePkg [100]]] (by decide)

/-- C4 counterexample: with a duplicated source name, the source's `pop`
replaces only the first occurrence while the claim's static-map reading
replaces both, so the two disagree. -/
theorem C4_duplicate_source_name_diverges :
    patch [Entry.texture ⟨[98], 1, [5]⟩, Entry.texture ⟨[98], 1, [6]⟩]
        [[Entry.texture ⟨[98], 1, [7]⟩]] =
      [Entry.texture ⟨[98], 1, [7]⟩, Entry.texture ⟨[98], 1, [6]⟩] ∧
    patchSpec [Entry.texture ⟨[98], 1, [5]⟩, Entry.texture ⟨[98], 1, [6]⟩]
        [[Entry.texture ⟨[98], 1, [7]⟩]] =
      [Entry.texture ⟨[98], 1, [7]⟩, Entry.texture ⟨[98], 1, [7]⟩] ∧
    patch [Entry.texture ⟨[98], 1, [5]⟩, Entry.texture ⟨[98], 1, [6]⟩]
        [[Entry.texture ⟨[98], 1, [7]⟩]] ≠
      patchSpec [Entry.texture ⟨[98], 1, [5]⟩, Entry.texture ⟨[98], 1, [6]⟩]
        [[Entry.texture ⟨[98], 1, [7]⟩]] :=
  ⟨rfl, rfl, by decide⟩

/-! ## `PackageReader` (sggpio.py)

The reader state: the raw file stream, the decompressed-chunk read
buffer with its cursor, the virtual position `[chunk, offset]` and the
`chunklocs` table of recorded raw chunk offsets.  Loops (`read`'s
chunk-loading loop, sentinel recursion in `read_entry`, `_seek_chunk`'s
skip loop, `load`) take explicit fuel; every theorem below supplies
enough fuel for its input. -/

/-- The chunk processor the reader was opened with. -/
inductive RCodec where
  | uncompressed
  | compressed (decompress : List Nat → Nat → List Nat)

/-- `chunkprocessor.read_chunk`. -/
def RCodec.read_chunk : RCodec → RawS → Nat → List Nat × RawS
  | .uncompressed, s, n => uncompressedReadChunk s n
  | .compressed d, s, n => compressedReadChunk d s n

/-- `chunkprocessor.skip_chunk`. -/
def RCodec.skip_chunk : RCodec → RawS → Nat → RawS
  | .uncompressed, s, n => uncompressedSkipChunk s n
  | .compressed _, s, n => compressedSkipChunk s n

/-- `PackageReader` state. -/
structure ReaderSt where
  raw : RawS
  read_buf : List Nat
  read_pos : Int
  vchunk : Int
  vpos : Int
  chunklocs : List Nat
deriving DecidableEq, Repr

/-- `PackageReader.__init__`: open at position 0, `chunklocs = [4]`,
reset the buffer, then `_read_header` consumes the 4 header bytes and
sets the virtual offset to 4. -/
def initReader (file : List Nat) : ReaderSt :=
  let raw0 : RawS := { data := file, pos := 0 }
  let r1 := RawS.read 1 raw0
  let r2 := RawS.read 2 r1.2
  let r3 := RawS.read 1 r2.2
  { raw := r3.2, read_buf := [], read_pos := 0, vchunk := 0, vpos := 4, chunklocs := [4] }

/-- `PackageReader._read_from_buffer(amt)`: slice `buf[pos:pos+amt]`,
advance the buffer cursor and the virtual offset. -/
def ReaderSt.read_from_buffer (s : ReaderSt) (amt : Int) : List Nat × ReaderSt :=
  ((s.read_buf.drop s.read_pos.toNat).take ((s.read_pos + amt).toNat - s.read_pos.toNat),
   { s with read_pos := s.read_pos + amt, vpos := s.vpos + amt })

/-- `PackageReader._read_chunk`: at raw EOF return `None`; otherwise the
chunk size is `CHUNK_SIZE - pos` while `pos <= 4` (the header shares the
first chunk) and the processor fills the buffer. -/
def ReaderSt.read_chunk (codec : RCodec) (s : ReaderSt) : Option (List Nat) × ReaderSt :=
  if s.raw.isEof then (none, s)
  else
    let chunksize := if s.raw.pos ≤ 4 then CHUNK_SIZE - s.raw.pos else CHUNK_SIZE
    let r := RCodec.read_chunk codec s.raw chunksize
    (some r.1, { s with raw := r.2, read_buf := r.1, read_pos := 0, vpos := 0 })

/-- The chunk-loading loop of `PackageReader.read`, carrying the bytes
still needed and the segments gathered so far. -/
def readLoop (codec : RCodec) : Nat → ReaderSt → Int → List Nat → List Nat × ReaderSt
  | 0, s, _, acc => (acc, s)
  | fuel + 1, s, need, acc =>
    match ReaderSt.read_chunk codec s with
    | (none, s') => (acc, s')
    | (some buf, s') =>
      if (buf.length : Int) < need then readLoop codec fuel s' (need - buf.length) (acc ++ buf)
      else
        ((acc ++ (ReaderSt.read_from_buffer s' need).1), (ReaderSt.read_from_buffer s' need).2)

/-- `PackageReader.read(size)`: serve from the buffer when
`size <= len(buf) - pos` (an `Int` comparison — the difference can be
negative after a stale seek), else gather `buf[pos:]` and load chunks. -/
def ReaderSt.read (codec : RCodec) (fuel : Nat) (s : ReaderSt) (size : Int) :
    List Nat × ReaderSt :=
  let num_bytes_to_read : Int := (s.read_buf.length : Int) - s.read_pos
  if size ≤ num_bytes_to_read then ReaderSt.read_from_buffer s size
  else readLoop codec fuel s (size - num_bytes_to_read) (s.read_buf.drop s.read_pos.toNat)

/-- `PackageReader.read` as a `ReadFn`, the stream the entry parsers
consume. -/
def readerReadFn (codec : RCodec) (fuel : Nat) : ReadFn ReaderSt :=
  fun n s => ReaderSt.read codec fuel s n

/-- `PackageReader.is_eof`. -/
def ReaderSt.is_eof (s : ReaderSt) : Bool :=
  s.raw.isEof && decide ((s.read_buf.length : Int) ≤ s.read_pos)

/-- `PackageReader._end_of_chunk`: reset the buffer, advance the virtual
chunk, and record the current raw offset when the table is short. -/
def ReaderSt.end_of_chunk (s : ReaderSt) : ReaderSt :=
  let s1 := { s with read_buf := [], read_pos := 0, vchunk := s.vchunk + 1, vpos := 0 }
  if (s1.chunklocs.length : Int) ≤ s1.vchunk then
    { s1 with chunklocs := s1.chunklocs ++ [s1.raw.pos] }
  else s1

/-- `PackageReader.read_entry`: dispatch on the first byte string, with
0xBE advancing a chunk and retrying and 0xFF meaning end of data. -/
def ReaderSt.read_entry (codec : RCodec) (im : Bool) :
    Nat → ReaderSt → Except PyErr (Option Entry × ReaderSt)
  | 0, _ => .error .exception
  | fuel + 1, s =>
    if s.is_eof then .ok (none, s)
    else
      let r := ReaderSt.read codec (fuel + 1) s 1
      if r.1 = [0xBE] then ReaderSt.read_entry codec im fuel (ReaderSt.end_of_chunk r.2)
      else if r.1 = [0xFF] then .ok (none, r.2)
      else
        match getEntryParser r.1 (readerReadFn codec (fuel + 1)) im r.2 with
        | .ok (e, s') => .ok (some e, s')
        | .error e => .error e

/-- `PackageIO._skip_chunk`. -/
def ReaderSt.skip_chunk (codec : RCodec) (s : ReaderSt) : Bool × ReaderSt :=
  if s.raw.isEof then (false, s)
  else
    let chunksize := if s.raw.pos ≤ 4 then CHUNK_SIZE - s.raw.pos else CHUNK_SIZE
    let raw' := RCodec.skip_chunk codec s.raw chunksize
    let s1 := { s with raw := raw', vchunk := s.vchunk + 1 }
    if (s1.chunklocs.length : Int) ≤ s1.vchunk then
      (true, { s1 with chunklocs := s1.chunklocs ++ [raw'.pos] })
    else (true, s1)

/-- The `while self.virtual_pos[0] < n` loop of `_seek_chunk`. -/
def skipLoop (codec : RCodec) : Nat → ReaderSt → Int → ReaderSt
  | 0, s, _ => s
  | fuel + 1, s, n =>
    if s.vchunk < n then skipLoop codec fuel (ReaderSt.skip_chunk codec s).2 n else s

/-- `PackageIO._seek_chunk(n)`: jump straight to a recorded offset, or
rewind to the last recorded chunk and skip forward. -/
def ReaderSt.seek_chunk (codec : RCodec) (fuel : Nat) (s : ReaderSt) (n : Int) : ReaderSt :=
  if n < (s.chunklocs.length : Int) then
    { s with raw := RawS.seekSet (s.chunklocs.getD n.toNat 0) s.raw, vchunk := n }
  else
    let s1 : ReaderSt :=
      { s with raw := RawS.seekSet (s.chunklocs.getLastD 0) s.raw,
               vchunk := (s.chunklocs.length : Int) - 1 }
    skipLoop codec fuel s1 n

/-- `PackageReader._after_seek`: wipe a stale buffer and reload, or — in
the same-chunk case — just move the buffer cursor to the new offset. -/
def ReaderSt.after_seek (codec : RCodec) (s : ReaderSt) (oldc newc newp : Int) : ReaderSt :=
  if oldc ≠ newc then
    let s1 := { s with read_buf := [], read_pos := 0 }
    if newc = 0 ∧ newp ≤ 4 then s1
    else
      let chunkpos := if newc = 0 then newp - 4 else newp
      if chunkpos > 0 then
        { (ReaderSt.read_chunk codec s1).2 with read_pos := chunkpos }
      else s1
  else { s with read_pos := newp }

/-- `PackageIO.seek(p)` (SEEK_SET). -/
def ReaderSt.seek (codec : RCodec) (fuel : Nat) (s : ReaderSt) (p : Int) : ReaderSt :=
  let newc := Int.fdiv p CHUNK_SIZE
  let newp := Int.fmod p CHUNK_SIZE
  let oldc := s.vchunk
  let s1 := if newc ≠ s.vchunk then ReaderSt.seek_chunk codec fuel s newc else s
  ReaderSt.after_seek codec { s1 with vpos := newp } oldc newc newp

/-- The `for entry in self` loop of `load`, building the name-keyed
dict. -/
def loadLoop (codec : RCodec) (im : Bool) :
    Nat → ReaderSt → List (List Nat × Entry) →
    Except PyErr (List (List Nat × Entry) × ReaderSt)
  | 0, _, _ => .error .exception
  | fuel + 1, s, d =>
    match ReaderSt.read_entry codec im (fuel + 1) s with
    | .ok (none, s') => .ok (d, s')
    | .ok (some e, s') => loadLoop codec im fuel s' (dictInsert d e.name e)
    | .error e => .error e

/-- `PackageReader.load`: seek to position 4 and read every entry into a
name-keyed dict. -/
def ReaderSt.load (codec : RCodec) (im : Bool) (fuel : Nat) (s : ReaderSt) :
    Except PyErr (List (List Nat × Entry) × ReaderSt) :=
  loadLoop codec im fuel (ReaderSt.seek codec fuel s 4) []

/-- The uncompressed two-include package of the claim's concrete case:
header, include "a", include "b", end-of-file sentinel. -/
def c3file : List Nat := [0, 0, 0, 7, 0xCC, 1, 97, 0xCC, 1, 98, 0xFF]

/-- The reader after `seek(4)` on that package. -/
def c3seeked : ReaderSt := ReaderSt.seek RCodec.uncompressed 20 (initReader c3file) 4

/-- C3: the claim says `seek(p); read(k)` returns the `k` bytes at
virtual offset `p`, and that `seek(4); read_entry()` yields
include("a").  In the source, the same-chunk branch of `_after_seek`
sets `_read_pos` to the target offset without checking that the buffer
is loaded, so on a fresh reader `seek(4)` leaves an empty buffer with
cursor 4; `read(1)` then computes a negative remaining count and returns
5 bytes, and `read_entry` dispatches on that 5-byte string and fails
with a `KeyError` instead of returning include("a"). -/
theorem C3_seek_then_read_broken :
    (ReaderSt.read RCodec.uncompressed 20 c3seeked 1).1 = [0xCC, 1, 97, 0xCC, 1] ∧
    (ReaderSt.read RCodec.uncompressed 20 c3seeked 1).1 ≠ [0xCC] ∧
    ReaderSt.read_entry RCodec.uncompressed false 20 c3seeked = .error .keyError := by
  refine ⟨by decide, by decide, by decide⟩

/-- The uncompressed package with two entries of the same name "a". -/
def c10file : List Nat := [0, 0, 0, 7, 0xCC, 1, 97, 0xCC, 1, 97, 0xFF]

/-- C10: the claim says `load` returns a name-keyed map keeping the last
entry per duplicated name.  `load` starts with `seek(4)`, which hits the
stale-buffer bug of C3, so on this two-entry duplicate-name package
`load` raises `KeyError` and never returns a map at all. -/
theorem C10_load_raises_instead_of_map :
    ReaderSt.load RCodec.uncompressed false 20 (initReader c10file) = .error .keyError := by
  decide

theorem end_of_chunk_growth (s : ReaderSt) :
    ∃ t, (ReaderSt.end_of_chunk s).chunklocs = s.chunklocs ++ t := by
  unfold ReaderSt.end_of_chunk
  dsimp only
  split
  · exact ⟨[s.raw.pos], rfl⟩
  · exact ⟨[], (List.append_nil _).symm⟩

theorem skip_chunk_growth (codec : RCodec) (s : ReaderSt) :
    ∃ t, ((ReaderSt.skip_chunk codec s).2).chunklocs = s.chunklocs ++ t := by
  unfold ReaderSt.skip_chunk
  dsimp only
  split
  · exact ⟨[], (List.append_nil _).symm⟩
  · split
    · exact ⟨[(RCodec.skip_chunk codec s.raw
        (if s.raw.pos ≤ 4 then CHUNK_SIZE - s.raw.pos else CHUNK_SIZE)).pos], rfl⟩
    · exact ⟨[], (List.append_nil _).symm⟩

theorem skipLoop_growth (codec : RCodec) :
    ∀ (fuel : Nat) (s : ReaderSt) (n : Int),
      ∃ t, (skipLoop codec fuel s n).chunklocs = s.chunklocs ++ t := by
  intro fuel
  induction fuel with
  | zero => exact fun s n => ⟨[], (List.append_nil _).symm⟩
  | succ f ih =>
    intro s n
    unfold skipLoop
    split
    · obtain ⟨t1, h1⟩ := skip_chunk_growth codec s
      obtain ⟨t2, h2⟩ := ih (ReaderSt.skip_chunk codec s).2 n
      exact ⟨t1 ++ t2, by rw [h2, h1, List.append_assoc]⟩
    · exact ⟨[], (List.append_nil _).symm⟩

theorem seek_chunk_growth (codec : RCodec) (fuel : Nat) (s : ReaderSt) (n : Int) :
    ∃ t, (ReaderSt.seek_chunk codec fuel s n).chunklocs = s.chunklocs ++ t := by
  unfold ReaderSt.seek_chunk
  dsimp only
  split
  · exact ⟨[], (List.append_nil _).symm⟩
  · exact skipLoop_growth codec fuel _ n

theorem read_chunk_chunklocs (codec : RCodec) (s : ReaderSt) :
    ((ReaderSt.read_chunk codec s).2).chunklocs = s.chunklocs := by
  unfold ReaderSt.read_chunk
  dsimp only
  split <;> rfl

theorem readLoop_chunklocs (codec : RCodec) :
    ∀ (fuel : Nat) (s : ReaderSt) (need : Int) (acc : List Nat),
      ((readLoop codec fuel s need acc).2).chunklocs = s.chunklocs := by
  intro fuel
  induction fuel with
  | zero => intro s need acc; rfl
  | succ f ih =>
    intro s need acc
    unfold readLoop
    have hrc := read_chunk_chunklocs codec s
    rcases hc : ReaderSt.read_chunk codec s with ⟨ob, s'⟩
    rw [hc] at hrc
    cases ob with
    | none => simpa using hrc
    | some buf =>
      dsimp only
      split
      · rw [ih s' _ _]
        exact hrc
      · simpa [ReaderSt.read_from_buffer] using hrc

theorem read_chunklocs (codec : RCodec) (fuel : Nat) (s : ReaderSt) (size : Int) :
    ((ReaderSt.read codec fuel s size).2).chunklocs = s.chunklocs := by
  unfold ReaderSt.read
  dsimp only
  split
  · rfl
  · exact readLoop_chunklocs codec fuel s _ _

theorem after_seek_chunklocs (codec : RCodec) (s : ReaderSt) (oldc newc newp : Int) :
    (ReaderSt.after_seek codec s oldc newc newp).chunklocs = s.chunklocs := by
  unfold ReaderSt.after_seek
  dsimp only
  split
  · split
    · rfl
    · split
      · split
        · exact read_chunk_chunklocs codec _
        · rfl
      · split
        · exact read_chunk_chunklocs codec _
        · rfl
  · rfl

theorem seek_growth (codec : RCodec) (fuel : Nat) (s : ReaderSt) (p : Int) :
    ∃ t, (ReaderSt.seek codec fuel s p).chunklocs = s.chunklocs ++ t := by
  unfold ReaderSt.seek
  dsimp only
  rw [after_seek_chunklocs]
  split
  · obtain ⟨t, ht⟩ := seek_chunk_growth codec fuel s (Int.fdiv p CHUNK_SIZE)
    exact ⟨t, ht⟩
  · exact ⟨[], (List.append_nil _).symm⟩

/-! ## Well-formed compressed package files

A compressed package is the 4-byte header followed by one frame per
chunk: flag byte 1, the 4-byte big-endian compressed length, then that
many payload bytes (exactly what `compressedWriteChunk` emits). -/

/-- One chunk frame with payload `d`. -/
def frame (d : List Nat) : List Nat := 1 :: (be4 d.length ++ d)

/-- A compressed package file with the given frame payloads. -/
def cfile (datas : List (List Nat)) : List Nat := [1, 0, 0, 7] ++ (datas.map frame).join

/-- The raw byte offset at which chunk `k`'s frame starts. -/
def chunkStart (datas : List (List Nat)) (k : Nat) : Nat :=
  4 + (((datas.take k).map frame).join).length

theorem frame_length (d : List Nat) : (frame d).length = 5 + d.length := by
  simp [frame, be4]
  omega

theorem rawRead_at (pre xs rest : List Nat) (n : Int) (hn : (xs.length : Int) = n) :
    RawS.read n ⟨pre ++ (xs ++ rest), pre.length⟩ =
      (xs, ⟨pre ++ (xs ++ rest), pre.length + xs.length⟩) := by
  subst hn
  unfold RawS.read
  rw [if_neg (by omega : ¬ ((xs.length : Nat) : Int) < 0)]
  dsimp only
  rw [Int.toNat_natCast]
  have h1 : ((pre ++ (xs ++ rest)).drop pre.length).take xs.length = xs := by
    rw [List.drop_left, List.take_left]
  have h2 : min (pre.length + xs.length) (pre ++ (xs ++ rest)).length =
      pre.length + xs.length := by
    simp [List.length_append]
  rw [h1, h2]

theorem intFromBEsigned_be4_nat {L : Nat} (h : L < 2 ^ 31) :
    intFromBEsigned (be4 L) = (L : Int) := by
  have hmod : (((L : Int)) % ((2 ^ 32 : Nat) : Int)).toNat = L := by
    have h32 : ((2 ^ 32 : Nat) : Int) = 4294967296 := by norm_num
    rw [h32]
    omega
  rw [show be4 L = be4 ((((L : Int)) % ((2 ^ 32 : Nat) : Int)).toNat) from by rw [hmod]]
  exact intFromBEsigned_be4 (le_trans (by norm_num) (Int.natCast_nonneg _)) (by exact_mod_cast h)

theorem compressedSkipChunk_at (pre d post : List Nat) (hd : d.length < 2 ^ 31) (cs : Nat) :
    compressedSkipChunk ⟨pre ++ ([1] ++ (be4 d.length ++ (d ++ post))), pre.length⟩ cs =
      ⟨pre ++ ([1] ++ (be4 d.length ++ (d ++ post))), pre.length + 5 + d.length⟩ := by
  unfold compressedSkipChunk
  rw [rawRead_at pre [1] (be4 d.length ++ (d ++ post)) 1 (by norm_num)]
  dsimp only
  rw [if_pos (by decide : PyVal.pyNe (.pyBytes [1]) (.pyInt 0) = true)]
  have hfile : pre ++ ([1] ++ (be4 d.length ++ (d ++ post))) =
      (pre ++ [1]) ++ (be4 d.length ++ (d ++ post)) := by
    simp [List.append_assoc]
  have hlen1 : pre.length + [1].length = (pre ++ [1]).length := by
    simp
  unfold read_int rawRead
  rw [show (RawS.mk (pre ++ ([1] ++ (be4 d.length ++ (d ++ post))))
      (pre.length + [1].length)) =
    RawS.mk ((pre ++ [1]) ++ (be4 d.length ++ (d ++ post))) (pre ++ [1]).length from by
      rw [hfile, hlen1]]
  rw [rawRead_at (pre ++ [1]) (be4 d.length) (d ++ post) 4 (by rw [be4_length]; norm_num)]
  dsimp only
  rw [intFromBEsigned_be4_nat hd]
  unfold RawS.seekCur
  rw [← hfile]
  refine congrArg (RawS.mk _) ?_
  have : ((pre ++ [1]).length + (be4 d.length).length : Nat) = pre.length + 5 := by
    simp [be4]
  rw [this]
  dsimp only
  omega

theorem cfile_decomp (datas : List (List Nat)) (m : Nat) (hm : m < datas.length) :
    cfile datas =
      ([1, 0, 0, 7] ++ ((datas.take m).map frame).join) ++
        ([1] ++ (be4 (datas.get ⟨m, hm⟩).length ++
          ((datas.get ⟨m, hm⟩) ++ ((datas.drop (m + 1)).map frame).join))) := by
  have hsplit : datas = datas.take m ++ (datas.get ⟨m, hm⟩ :: datas.drop (m + 1)) := by
    conv_lhs => rw [← List.take_append_drop m datas]
    rw [List.drop_eq_getElem_cons hm]
    simp
  conv_lhs => rw [cfile, hsplit]
  simp only [List.map_append, List.map_cons, List.join_append, List.join_cons, frame,
    List.cons_append, List.append_assoc]
  simp [List.join]

theorem chunkStart_pre_length (datas : List (List Nat)) (m : Nat) :
    ([1, 0, 0, 7] ++ ((datas.take m).map frame).join).length = chunkStart datas m := by
  simp [chunkStart, List.length_append]
  omega

theorem chunkStart_succ (datas : List (List Nat)) (m : Nat) (hm : m < datas.length) :
    chunkStart datas (m + 1) = chunkStart datas m + (5 + (datas.get ⟨m, hm⟩).length) := by
  unfold chunkStart
  rw [List.take_succ, List.getElem?_eq_getElem hm]
  simp only [Option.toList_some, List.map_append, List.join_append, List.length_append,
    List.map_cons, List.map_nil, List.join_cons, List.join_nil, List.append_nil, frame_length,
    List.get_eq_getElem, List.join]
  omega

theorem chunkStart_lt_total (datas : List (List Nat)) (m : Nat) (hm : m < datas.length) :
    chunkStart datas m < (cfile datas).length := by
  rw [cfile_decomp datas m hm]
  have hp := chunkStart_pre_length datas m
  simp only [List.length_append] at hp ⊢
  simp [be4] at hp ⊢
  omega

theorem skip_chunk_exact (dec : List Nat → Nat → List Nat) (datas : List (List Nat))
    (m : Nat) (hm : m < datas.length) (hlen : (datas.get ⟨m, hm⟩).length < 2 ^ 31)
    (rb : List Nat) (rp vp : Int) (locs : List Nat) (hlocs : locs.length = m + 1) :
    ReaderSt.skip_chunk (RCodec.compressed dec)
      { raw := ⟨cfile datas, chunkStart datas m⟩, read_buf := rb, read_pos := rp,
        vchunk := (m : Int), vpos := vp, chunklocs := locs } =
      (true,
        { raw := ⟨cfile datas, chunkStart datas (m + 1)⟩, read_buf := rb, read_pos := rp,
          vchunk := (m : Int) + 1, vpos := vp,
          chunklocs := locs ++ [chunkStart datas (m + 1)] }) := by
  have htot := chunkStart_lt_total datas m hm
  have hskip : ∀ cs : Nat, compressedSkipChunk ⟨cfile datas, chunkStart datas m⟩ cs =
      ⟨cfile datas, chunkStart datas (m + 1)⟩ := by
    intro cs
    have hdec := cfile_decomp datas m hm
    have hpre := chunkStart_pre_length datas m
    rw [show (⟨cfile datas, chunkStart datas m⟩ : RawS) =
        ⟨([1, 0, 0, 7] ++ ((datas.take m).map frame).join) ++
          ([1] ++ (be4 (datas.get ⟨m, hm⟩).length ++
            ((datas.get ⟨m, hm⟩) ++ ((datas.drop (m + 1)).map frame).join))),
         ([1, 0, 0, 7] ++ ((datas.take m).map frame).join).length⟩ from by
      rw [← hdec, hpre]]
    rw [compressedSkipChunk_at _ _ _ hlen cs]
    rw [← hdec]
    refine congrArg (RawS.mk _) ?_
    rw [hpre, chunkStart_succ datas m hm]
    omega
  have hne : ¬ (RawS.isEof (⟨cfile datas, chunkStart datas m⟩ : RawS) = true) := by
    simp [RawS.isEof]
    omega
  unfold ReaderSt.skip_chunk
  rw [if_neg hne]
  dsimp only [RCodec.skip_chunk]
  rw [hskip]
  rw [if_pos (by simp [hlocs] : ((locs.length : Nat) : Int) ≤ (m : Int) + 1)]

theorem skipLoop_exact (dec : List Nat → Nat → List Nat) (datas : List (List Nat))
    (hl : ∀ d ∈ datas, d.length < 2 ^ 31) :
    ∀ (j m : Nat) (locs rb : List Nat) (rp vp : Int),
      m + j ≤ datas.length → locs.length = m + 1 →
      skipLoop (RCodec.compressed dec) (j + 1)
        { raw := ⟨cfile datas, chunkStart datas m⟩, read_buf := rb, read_pos := rp,
          vchunk := (m : Int), vpos := vp, chunklocs := locs } ((m + j : Nat) : Int) =
        { raw := ⟨cfile datas, chunkStart datas (m + j)⟩, read_buf := rb, read_pos := rp,
          vchunk := ((m + j : Nat) : Int), vpos := vp,
          chunklocs := locs ++ (List.range j).map (fun i => chunkStart datas (m + i + 1)) } := by
  intro j
  induction j with
  | zero =>
    intro m locs rb rp vp hmj hlocs
    unfold skipLoop
    rw [if_neg (by omega : ¬ ((m : Int) < ((m + 0 : Nat) : Int)))]
    simp
  | succ j ih =>
    intro m locs rb rp vp hmj hlocs
    have hm : m < datas.length := by omega
    unfold skipLoop
    rw [if_pos (by omega : ((m : Int) < ((m + (j + 1) : Nat) : Int)))]
    rw [skip_chunk_exact dec datas m hm (hl _ (List.get_mem datas m hm)) rb rp vp locs hlocs]
    dsimp only
    have h1 : ((m : Int) + 1) = (((m + 1 : Nat)) : Int) := by push_cast; ring
    have h2 : ((m + (j + 1) : Nat) : Int) = (((m + 1) + j : Nat) : Int) := by
      push_cast
      ring
    rw [h1, h2]
    rw [ih (m + 1) (locs ++ [chunkStart datas (m + 1)]) rb rp vp (by omega) (by simp [hlocs])]
    have h3 : (m + 1) + j = m + (j + 1) := by omega
    rw [h3]
    rw [List.range_succ_eq_map, List.map_cons, List.map_map, List.append_assoc]
    refine congrArg (ReaderSt.mk _ _ _ _ _) ?_
    refine congrArg (locs ++ ·) ?_
    rw [List.singleton_append]
    refine congrArg₂ List.cons (by rw [Nat.add_zero]) ?_
    refine List.map_congr_left ?_
    intro i hi
    simp only [Function.comp]
    refine congrArg (chunkStart datas) ?_
    omega

theorem initReader_raw (file : List Nat) (h4 : 4 ≤ file.length) :
    initReader file =
      { raw := ⟨file, 4⟩, read_buf := [], read_pos := 0, vchunk := 0,
        vpos := 4, chunklocs := [4] } := by
  simp [initReader, RawS.read]
  omega

theorem seek_chunk_exact (dec : List Nat → Nat → List Nat) (datas : List (List Nat))
    (hl : ∀ d ∈ datas, d.length < 2 ^ 31) (n : Nat) (hn1 : 1 ≤ n) (hn : n ≤ datas.length) :
    ReaderSt.seek_chunk (RCodec.compressed dec) (n + 1) (initReader (cfile datas)) (n : Int) =
      { raw := ⟨cfile datas, chunkStart datas n⟩, read_buf := [], read_pos := 0,
        vchunk := (n : Int), vpos := 4,
        chunklocs := (List.range (n + 1)).map (chunkStart datas) } := by
  have h4 : 4 ≤ (cfile datas).length := by simp [cfile]
  have h0 : chunkStart datas 0 = 4 := by simp [chunkStart]
  rw [initReader_raw _ h4]
  unfold ReaderSt.seek_chunk
  rw [if_neg (by simp; omega : ¬ ((n : Int) < (([4] : List Nat).length : Int)))]
  dsimp only
  have hs1 :
      ({ raw := RawS.seekSet (([4] : List Nat).getLastD 0) ⟨cfile datas, 4⟩,
         read_buf := ([] : List Nat), read_pos := (0 : Int),
         vchunk := ((([4] : List Nat).length : Int) - 1), vpos := (4 : Int),
         chunklocs := ([4] : List Nat) } : ReaderSt) =
      { raw := ⟨cfile datas, chunkStart datas 0⟩, read_buf := [], read_pos := 0,
        vchunk := ((0 : Nat) : Int), vpos := 4, chunklocs := [4] } := by
    simp [RawS.seekSet, h0]
  rw [hs1]
  rw [show ((n : Nat) : Int) = ((0 + n : Nat) : Int) from by norm_num]
  rw [skipLoop_exact dec datas hl n 0 [4] [] 0 4 (by omega) (by simp)]
  simp [List.range_succ_eq_map, List.map_map, Function.comp, Nat.zero_add, h0]

/-- C8: the claim says `chunklocs[k]` always equals the exact raw offset
of chunk `k` and the table only grows.  The growth half holds for every
operation (the table is append-only), and exactness holds for compressed
packages, whose frames make `skip_chunk`/`read_chunk` stop exactly at
the next chunk.  Amended: for the uncompressed codec exactness fails —
`read_chunk` reads a whole chunk window regardless of where the chunk's
bytes end, so the offset recorded when crossing a 0xBE sentinel is the
post-read raw position, not the next chunk's start (see the
counterexample). -/
theorem C8_chunklocs_amended :
    (∀ s : ReaderSt, ∃ t, (ReaderSt.end_of_chunk s).chunklocs = s.chunklocs ++ t) ∧
    (∀ (codec : RCodec) (s : ReaderSt),
        ∃ t, ((ReaderSt.skip_chunk codec s).2).chunklocs = s.chunklocs ++ t) ∧
    (∀ (codec : RCodec) (fuel : Nat) (s : ReaderSt) (n : Int),
        ∃ t, (ReaderSt.seek_chunk codec fuel s n).chunklocs = s.chunklocs ++ t) ∧
    (∀ (codec : RCodec) (fuel : Nat) (s : ReaderSt) (p : Int),
        ∃ t, (ReaderSt.seek codec fuel s p).chunklocs = s.chunklocs ++ t) ∧
    (∀ (codec : RCodec) (fuel : Nat) (s : ReaderSt) (size : Int),
        ((ReaderSt.read codec fuel s size).2).chunklocs = s.chunklocs) ∧
    (∀ (dec : List Nat → Nat → List Nat) (datas : List (List Nat)),
        (∀ d ∈ datas, d.length < 2 ^ 31) → ∀ n : Nat, 1 ≤ n → n ≤ datas.length →
        (ReaderSt.seek_chunk (RCodec.compressed dec) (n + 1) (initReader (cfile datas))
            (n : Int)).chunklocs =
          (List.range (n + 1)).map (chunkStart datas)) := by
  refine ⟨end_of_chunk_growth, skip_chunk_growth, seek_chunk_growth, seek_growth,
    read_chunklocs, ?_⟩
  intro dec datas hl n hn1 hn
  rw [seek_chunk_exact dec datas hl n hn1 hn]

/-- Witness for C8: growth at a concrete state, and exactness on the
two-chunk compressed package with payloads `[5]` and `[6, 7]`, whose
frames start at offsets 4, 10 and 17. -/
theorem C8_chunklocs_amended_witness :
    (∃ t, (ReaderSt.end_of_chunk (initReader (cfile [[5], [6, 7]]))).chunklocs =
        (initReader (cfile [[5], [6, 7]])).chunklocs ++ t) ∧
    (ReaderSt.seek_chunk (RCodec.compressed padDecompress) 3 (initReader (cfile [[5], [6, 7]]))
        (2 : Int)).chunklocs = (List.range 3).map (chunkStart [[5], [6, 7]]) ∧
    (List.range 3).map (chunkStart [[5], [6, 7]]) = [4, 10, 17] := by
  refine ⟨C8_chunklocs_amended.1 _, ?_, by decide⟩
  exact C8_chunklocs_amended.2.2.2.2.2 padDecompress [[5], [6, 7]] (by decide) 2 (by decide)
    (by decide)

/-- The uncompressed two-chunk package: chunk 0 holds include "a" and
ends with the 0xBE sentinel at offset 7, so chunk 1's bytes begin at raw
offset 8; include "b" and the end-of-file sentinel follow. -/
def c8file : List Nat := [0, 0, 0, 7, 0xCC, 1, 97, 0xBE, 0xCC, 1, 98, 0xFF]

/-- C8 counterexample: reading across the sentinel on the uncompressed
package records `chunklocs = [4, 12]` — the post-read raw position (the
end of the file) — although chunk 1's first byte is at offset 8. -/
theorem C8_uncompressed_chunklocs_not_exact :
    ((ReaderSt.read_entry RCodec.uncompressed false 20 (initReader c8file)).map
        (fun r => (ReaderSt.read_entry RCodec.uncompressed false 20 r.2).map
          (fun r2 => r2.2.chunklocs))) = .ok (.ok [4, 12]) ∧
    c8file.take 8 = [0, 0, 0, 7, 0xCC, 1, 97, 0xBE] ∧
    (12 : Nat) ≠ 8 := by
  refine ⟨by decide, by decide, by decide⟩
